import Mathlib

/-!
Verification of the mCSD Update Client synchronization engine
(`component/mcsd` of the nuts-knooppunt repository).

The Go source is shallowly embedded: JSON resource bodies become an
inductive `Json` type, bundle entries become structures, Go maps become
association lists that preserve first-insertion order, and the remote
FHIR servers consulted by the sync orchestrator become an explicit
oracle record.  Functions named after Go functions are direct
translations of those functions; helpers from repository packages that
are not part of the source tree under scrutiny (`lib/fhirutil`,
`lib/coding`, the validator, and the `net/url` / `go-fhir-client`
library behaviour) are modelled from the specification and carry a
`Modelled from the spec:` note in their doc comment.
-/

namespace MCSD

/-- HTTP verbs of FHIR bundle entry requests (Go `fhir.HTTPVerb`). -/
inductive HTTPVerb where
  | get
  | head
  | post
  | put
  | delete
  | patch
  deriving DecidableEq, Repr

mutual

/-- A JSON value, as manipulated by the Go code through
`map[string]any` after `json.Unmarshal`.  Only the shapes the engine
inspects (strings, arrays, objects) are represented. -/
inductive Json where
  | str : String → Json
  | arr : JList → Json
  | obj : JFields → Json
  deriving DecidableEq, Repr

/-- A list of JSON values (elements of a JSON array). -/
inductive JList where
  | nil : JList
  | cons : Json → JList → JList
  deriving DecidableEq, Repr

/-- The fields of a JSON object, in insertion order.  Keys are unique
in every object produced by JSON decoding (Go maps), which the
operations below preserve. -/
inductive JFields where
  | nil : JFields
  | cons : String → Json → JFields → JFields
  deriving DecidableEq, Repr

end

/-- Look a key up in a JSON object (Go `resource[k]`). -/
def JFields.lookup (k : String) : JFields → Option Json
  | .nil => none
  | .cons k' v rest => if k' = k then some v else rest.lookup k

/-- Set a key in a JSON object (Go `resource[k] = v`): replaces the
existing binding, or appends a new one. -/
def JFields.set (k : String) (v : Json) : JFields → JFields
  | .nil => .cons k v .nil
  | .cons k' v' rest => if k' = k then .cons k v rest else .cons k' v' (rest.set k v)

/-- Remove a key from a JSON object (Go `delete(resource, k)`). -/
def JFields.erase (k : String) : JFields → JFields
  | .nil => .nil
  | .cons k' v rest => if k' = k then rest.erase k else .cons k' v (rest.erase k)

/-- The keys of a JSON object. -/
def JFields.keys : JFields → List String
  | .nil => []
  | .cons k _ rest => k :: rest.keys

/-- Look up a key expecting a string value
(Go `resource[k].(string)`). -/
def JFields.lookupStr (fs : JFields) (k : String) : Option String :=
  match fs.lookup k with
  | some (.str s) => some s
  | _ => none

/-- A FHIR bundle entry request (Go `fhir.BundleEntryRequest`). -/
structure BundleEntryRequest where
  method : HTTPVerb
  url : String
  deriving DecidableEq, Repr

/-- A FHIR bundle entry response (Go `fhir.BundleEntryResponse`);
only the HTTP status string is inspected by the engine. -/
structure BundleEntryResponse where
  status : String
  deriving DecidableEq, Repr

/-- A FHIR bundle entry (Go `fhir.BundleEntry`).  The raw
`json.RawMessage` resource body is represented as an optional
`Json` value. -/
structure BundleEntry where
  fullUrl : Option String := none
  resource : Option Json := none
  request : Option BundleEntryRequest := none
  response : Option BundleEntryResponse := none
  deriving DecidableEq, Repr

/-- A FHIR identifier (Go `fhir.Identifier`), restricted to the fields
the engine reads. -/
structure Identifier where
  system : Option String := none
  value : Option String := none
  deriving DecidableEq, Repr

/-- A FHIR reference (Go `fhir.Reference`), restricted to the literal
`reference` element. -/
structure GoReference where
  reference : Option String := none
  deriving DecidableEq, Repr

/-- A FHIR Organization (Go `fhir.Organization`), restricted to the
fields the organization-tree builder and the discoverer read. -/
structure Organization where
  id : Option String := none
  identifier : List Identifier := []
  partOf : Option GoReference := none
  endpoint : List GoReference := []
  name : Option String := none
  deriving DecidableEq, Repr

/-- A FHIR coding (Go `fhir.Coding`). -/
structure GoCoding where
  system : Option String := none
  code : Option String := none
  deriving DecidableEq, Repr

/-- A FHIR codeable concept (Go `fhir.CodeableConcept`). -/
structure CodeableConcept where
  coding : List GoCoding := []
  deriving DecidableEq, Repr

/-- A FHIR Endpoint (Go `fhir.Endpoint`), restricted to the fields the
engine reads. -/
structure Endpoint where
  id : Option String := none
  address : String := ""
  payloadType : List CodeableConcept := []
  deriving DecidableEq, Repr

/-- The URA naming-system URI (`lib/coding.URANamingSystem`). -/
def uraNamingSystem : String := "http://fhir.nl/fhir/NamingSystem/ura"

/-- The mCSD directory payload-type coding system
(`lib/coding.MCSDPayloadTypeSystem`). -/
def mcsdPayloadTypeSystem : String :=
  "http://nuts-foundation.github.io/nl-generic-functions-ig/CodeSystem/nl-gf-data-exchange-capabilities"

/-- The mCSD directory payload-type code
(`lib/coding.MCSDPayloadTypeDirectoryCode`). -/
def mcsdPayloadTypeDirectoryCode : String :=
  "http://nuts-foundation.github.io/nl-generic-functions-ig/CapabilityStatement/nl-gf-admin-directory-update-client"

/-- The coding that marks an Endpoint as an mCSD directory endpoint
(`lib/coding.PayloadCoding`). -/
def payloadCoding : GoCoding :=
  { system := some mcsdPayloadTypeSystem, code := some mcsdPayloadTypeDirectoryCode }

/-- Modelled from the spec: `lib/coding.CodablesIncludesCode` is not
under the source tree; per the spec it holds when some codeable
concept in the list contains a coding whose system and code both match
the given coding. -/
def codablesIncludesCode (ccs : List CodeableConcept) (c : GoCoding) : Bool :=
  ccs.any fun cc => cc.coding.any fun cd => cd.system == c.system && cd.code == c.code

/-- Modelled from the spec: `lib/fhirutil.FilterIdentifiersBySystem` is
not under the source tree; it keeps the identifiers whose system
equals the given naming-system URI. -/
def filterIdentifiersBySystem (ids : List Identifier) (system : String) : List Identifier :=
  ids.filter fun idn => idn.system == some system

/-- Read a non-empty run of decimal digits as a number. -/
def digitsToNat (acc : Nat) : List Char → Option Nat
  | [] => some acc
  | c :: r => if 48 ≤ c.toNat && c.toNat ≤ 57 then digitsToNat (10 * acc + (c.toNat - 48)) r
              else none

/-- Modelled from the spec: timestamp strings (`meta.lastUpdated`,
RFC3339 in the Go code) are abstracted to an order-preserving `Nat`
encoding; parsing fails exactly on strings that are not plain decimal
numerals. -/
def parseTimestamp (s : String) : Option Nat :=
  match s.data with
  | [] => none
  | l => digitsToNat 0 l

/-- Resource information derived from a resource body
(`lib/fhirutil.ResourceInfo` restricted to the fields the engine
reads). -/
structure ResourceInfo where
  resourceType : String
  id : String
  lastUpdated : Option Nat
  deriving DecidableEq, Repr

/-- Modelled from the spec: `lib/fhirutil.ExtractResourceInfo` is not
under the source tree; per the spec it derives resource type, id and
optional `meta.lastUpdated` from the JSON body, failing when the body
is not an object carrying a string `resourceType`. -/
def extractResourceInfo (j : Json) : Option ResourceInfo :=
  match j with
  | .obj fs =>
    match fs.lookupStr "resourceType" with
    | some ty =>
      let lu :=
        match fs.lookup "meta" with
        | some (.obj ms) =>
          match ms.lookupStr "lastUpdated" with
          | some s => parseTimestamp s
          | none => none
        | _ => none
      some { resourceType := ty, id := (fs.lookupStr "id").getD "", lastUpdated := lu }
    | none => none
  | _ => none

/-- Whether `pat` is a prefix of `l` (computable helper for the
string functions below). -/
def listStartsWith : List Char → List Char → Bool
  | [], _ => true
  | _ :: _, [] => false
  | p :: ps, c :: cs => p = c && listStartsWith ps cs

/-- Whether `pat` occurs as a contiguous run inside `l` (Go
`strings.Contains` on character lists). -/
def listContainsSub (pat : List Char) : List Char → Bool
  | [] => pat.isEmpty
  | c :: rest => listStartsWith pat (c :: rest) || listContainsSub pat rest

/-- Split a character list on a separator character, Go
`strings.Split` style: n separators yield n+1 (possibly empty)
chunks. -/
def splitOnChar (sep : Char) : List Char → List (List Char)
  | [] => [[]]
  | c :: rest =>
    match splitOnChar sep rest, decide (c = sep) with
    | r, true => [] :: r
    | [], false => [[c]]
    | h :: t, false => (c :: h) :: t

/-- Go `strings.Split(s, sep)`: the engine only ever splits on the
single-character separator `/`, which is the case implemented here; a
longer separator is never passed. -/
def goSplit (s sep : String) : List String :=
  match sep.data with
  | [c] => (splitOnChar c s.data).map String.mk
  | _ => [s]

/-- Go `strings.Contains(s, sub)`. -/
def goContains (s sub : String) : Bool := listContainsSub sub.data s.data

/-- Go `strings.ToLower` on one ASCII character. -/
def lowerChar (c : Char) : Char :=
  if 65 ≤ c.toNat && c.toNat ≤ 90 then Char.ofNat (c.toNat + 32) else c

/-- Go `strings.ToLower`, restricted to ASCII input as handled by the
engine. -/
def goToLower (s : String) : String := String.mk (s.data.map lowerChar)

/-- Split before and after the first occurrence of `pat` in `l`. -/
def splitFirstSub (pat : List Char) : List Char → Option (List Char × List Char)
  | [] => if pat.isEmpty then some ([], []) else none
  | c :: rest =>
    if listStartsWith pat (c :: rest) then some ([], (c :: rest).drop pat.length)
    else
      match splitFirstSub pat rest with
      | some (b, a) => some (c :: b, a)
      | none => none

/-- In-place replacement of one key's value in an association list
(the rewrite a Go map assignment performs on an existing key). -/
def replacePair {β : Type} (rid : String) (e : β) (p : String × β) : String × β :=
  if p.1 = rid then (rid, e) else p

/-- Association-list lookup with propositional key equality (the
model of Go map reads). -/
def alookup {β : Type} (k : String) : List (String × β) → Option β
  | [] => none
  | (k0, v) :: rest => if k0 = k then some v else alookup k rest

/-- `is410GoneError` checks whether an error message indicates a
410 Gone response (part_004). -/
def is410GoneError (err : Option String) : Bool :=
  match err with
  | none => false
  | some e => goContains e "410" || goContains (goToLower e) "gone"

/-- `makeDirectoryKey` builds the composite per-directory sync-state
key from the FHIR base URL and the authoritative URA (part_004). -/
def makeDirectoryKey (fhirBaseURL authoritativeUra : String) : String :=
  if authoritativeUra = "" then fhirBaseURL else fhirBaseURL ++ "|" ++ authoritativeUra

/-- Fallback branch of `extractResourceIDFromURL` (part_004): the last
slash-separated segment of `fullUrl`, or the empty string without
one. -/
def extractResourceIDFromFullUrl (entry : BundleEntry) : String :=
  match entry.fullUrl with
  | some u => (goSplit u "/").getLastD ""
  | none => ""

/-- `extractResourceIDFromURL` extracts the resource ID of a DELETE
operation from `request.url`, falling back to the last path segment of
`fullUrl` (part_004). -/
def extractResourceIDFromURL (entry : BundleEntry) : String :=
  match entry.request with
  | some req =>
    if req.url ≠ "" then
      let parts := goSplit req.url "/"
      if parts.length ≥ 2 then parts[1]! else extractResourceIDFromFullUrl entry
    else extractResourceIDFromFullUrl entry
  | none => extractResourceIDFromFullUrl entry

/-- `getLastUpdated` extracts the `meta.lastUpdated` timestamp from an
entry; `none` stands for the Go zero `time.Time` (part_004). -/
def getLastUpdated (entry : BundleEntry) : Option Nat :=
  match entry.resource with
  | none => none
  | some j =>
    match extractResourceInfo j with
    | none => none
    | some info => info.lastUpdated

/-- `isMoreRecent` compares two entries; true when the first carries a
strictly later timestamp, and false whenever either timestamp is
missing (part_004). -/
def isMoreRecent (entry1 entry2 : BundleEntry) : Bool :=
  match getLastUpdated entry1, getLastUpdated entry2 with
  | some t1, some t2 => t2 < t1
  | _, _ => false

/-- The resource ID a history entry is bucketed under by the
deduplicator: from the resource body when present, from the DELETE URL
otherwise (the first loop of `deduplicateHistoryEntries`,
part_004). -/
def dedupEntryID (entry : BundleEntry) : String :=
  match entry.resource with
  | none =>
    match entry.request with
    | some req => if req.method = .delete then extractResourceIDFromURL entry else ""
    | none => ""
  | some j =>
    match extractResourceInfo j with
    | some info => info.id
    | none => ""

/-- The map-building loop of `deduplicateHistoryEntries` (part_004):
Go `resourceMap` is modelled as an association list in first-insertion
order; an existing entry is overwritten only when `isMoreRecent`
says the new entry is strictly more recent. -/
def dedupBuildMap (m : List (String × BundleEntry)) : List BundleEntry → List (String × BundleEntry)
  | [] => m
  | entry :: rest =>
    let rid := dedupEntryID entry
    if rid = "" then dedupBuildMap m rest
    else
      match alookup rid m with
      | none => dedupBuildMap (m ++ [(rid, entry)]) rest
      | some existing =>
        if isMoreRecent entry existing then
          dedupBuildMap (m.map (replacePair rid entry)) rest
        else dedupBuildMap m rest

/-- `deduplicateHistoryEntries` keeps one entry per extracted resource
ID (the Go map iteration order is arbitrary; the model emits winners
in first-insertion order) followed by the entries from which no ID
could be extracted, in input order (part_004). -/
def deduplicateHistoryEntries (entries : List BundleEntry) : List BundleEntry :=
  (dedupBuildMap [] entries).map Prod.snd ++ entries.filter fun e => dedupEntryID e = ""

/-- Decode a JSON value into a `fhir.Reference` the way Go
`json.Unmarshal` does on the fields the engine reads. -/
def refOfJson (j : Json) : GoReference :=
  match j with
  | .obj fs => { reference := fs.lookupStr "reference" }
  | _ => { reference := none }

/-- Decode a JSON array into a list of values (Go slice decoding). -/
def jlistToList : JList → List Json
  | .nil => []
  | .cons j rest => j :: jlistToList rest

/-- Decode an optional JSON array field into a list. -/
def lookupList (fs : JFields) (k : String) : List Json :=
  match fs.lookup k with
  | some (.arr l) => jlistToList l
  | _ => []

/-- Decode a JSON value into a `fhir.Identifier`. -/
def identifierOfJson (j : Json) : Identifier :=
  match j with
  | .obj fs => { system := fs.lookupStr "system", value := fs.lookupStr "value" }
  | _ => {}

/-- Decode a JSON value into a `fhir.Coding`. -/
def codingOfJson (j : Json) : GoCoding :=
  match j with
  | .obj fs => { system := fs.lookupStr "system", code := fs.lookupStr "code" }
  | _ => {}

/-- Decode a JSON value into a `fhir.CodeableConcept`. -/
def codeableConceptOfJson (j : Json) : CodeableConcept :=
  match j with
  | .obj fs => { coding := (lookupList fs "coding").map codingOfJson }
  | _ => {}

/-- Decode a JSON resource body into a `fhir.Organization`
(Go `json.Unmarshal`, which ignores unknown fields and does not check
`resourceType`); decoding fails only when the body is not a JSON
object. -/
def orgOfJson (j : Json) : Option Organization :=
  match j with
  | .obj fs =>
    some { id := fs.lookupStr "id"
           identifier := (lookupList fs "identifier").map identifierOfJson
           partOf := (fs.lookup "partOf").map refOfJson
           endpoint := (lookupList fs "endpoint").map refOfJson
           name := fs.lookupStr "name" }
  | _ => none

/-- Decode a JSON resource body into a `fhir.Endpoint`
(Go `json.Unmarshal`); fails only when the body is not an object. -/
def endpointOfJson (j : Json) : Option Endpoint :=
  match j with
  | .obj fs =>
    some { id := fs.lookupStr "id"
           address := (fs.lookupStr "address").getD ""
           payloadType := (lookupList fs "payloadType").map codeableConceptOfJson }
  | _ => none

/-- A Go map assignment on an association list kept in first-insertion
order: assignment overwrites in place, new keys are appended. -/
def assocUpd {α : Type} (m : List (String × α)) (k : String) (v : α) : List (String × α) :=
  if (alookup k m).isSome then m.map (replacePair k v)
  else m ++ [(k, v)]

/-- Build the id-keyed organization map of `createOrganizationTree`
(part_004), folding entries into the map: entries without a body, with
a non-object body, or whose organization lacks an id are skipped. -/
def buildOrgMap' (m : List (String × Organization)) : List BundleEntry → List (String × Organization)
  | [] => m
  | entry :: rest =>
    match entry.resource with
    | none => buildOrgMap' m rest
    | some j =>
      match orgOfJson j with
      | none => buildOrgMap' m rest
      | some org =>
        match org.id with
        | some i => buildOrgMap' (assocUpd m i org) rest
        | none => buildOrgMap' m rest

/-- The id-check stage of `organizationLinksToParentRecursive`
(part_004): `some false` on a revisited id, `some true` when the
parent is reached, `none` to continue walking. -/
def organizationLinksPrecheck (org parentOrg : Organization) (visited : List String) :
    Option Bool :=
  match org.id with
  | some i =>
    if visited.contains i then some false
    else if parentOrg.id = some i then some true
    else none
  | none => none

/-- The visited set after the id-check stage of
`organizationLinksToParentRecursive` (part_004). -/
def organizationLinksVisitedAfter (org : Organization) (visited : List String) : List String :=
  match org.id with
  | some i => i :: visited
  | none => visited

/-- The next organization of the `partOf` chain walk (part_004): the
map entry named by the last slash-separated segment of the `partOf`
reference. -/
def organizationLinksNext (orgMap : List (String × Organization)) (org : Organization) :
    Option Organization :=
  match org.partOf with
  | none => none
  | some po =>
    match po.reference with
    | none => none
    | some ref =>
      let parentID := if goContains ref "/" then (goSplit ref "/").getLastD "" else ref
      alookup parentID orgMap

/-- The chain walk of `organizationLinksToParentRecursive`, with the
remaining recursion budget made an explicit structural argument:
`fuel` stands for `maxDepth + 1 - depth`, so `fuel = 0` is exactly the
`depth > maxDepth` exit of the Go code. -/
def organizationLinksGo (orgMap : List (String × Organization)) (parentOrg : Organization) :
    Nat → Organization → List String → Bool
  | 0, _, _ => false
  | fuel + 1, org, visited =>
    match organizationLinksPrecheck org parentOrg visited with
    | some b => b
    | none =>
      match organizationLinksNext orgMap org with
      | none => false
      | some nextOrg =>
        organizationLinksGo orgMap parentOrg fuel nextOrg
          (organizationLinksVisitedAfter org visited)

/-- `organizationLinksToParentRecursive` walks an organization's
`partOf` chain looking for the parent, with a visited set for cycle
detection and a maximum depth (part_004): at each step, exit when the
depth exceeds the maximum, short-circuit on the id check, and
otherwise follow the `partOf` reference. -/
def organizationLinksToParentRecursive (orgMap : List (String × Organization))
    (org parentOrg : Organization) (visited : List String) (depth maxDepth : Nat) : Bool :=
  organizationLinksGo orgMap parentOrg (maxDepth + 1 - depth) org visited

/-- `organizationLinksToParent` checks whether an organization's
`partOf` chain leads to the parent, up to depth 10 (part_004). -/
def organizationLinksToParent (orgMap : List (String × Organization))
    (org parentOrg : Organization) : Bool :=
  organizationLinksToParentRecursive orgMap org parentOrg [] 0 10

/-- `findOrganizationsLinkedToParent` returns the organizations of the
map (excluding the parent itself) whose `partOf` chain leads to the
parent (part_004). -/
def findOrganizationsLinkedToParent (orgMap : List (String × Organization))
    (parentOrg : Organization) : List Organization :=
  ((orgMap.filter fun p =>
      !(match p.2.id, parentOrg.id with
        | some a, some b => a = b
        | _, _ => false)
      && organizationLinksToParent orgMap p.2 parentOrg).map Prod.snd)

/-- The organization tree: each URA-bearing organization (a root)
mapped to the organizations linked to it (Go `parentOrganizationMap`,
modelled as an association list in map-insertion order). -/
abbrev ParentOrganizationMap := List (Organization × List Organization)

/-- `createOrganizationTree` indexes the organizations of the entries
by id and maps every URA-bearing organization to the organizations
whose `partOf` chain leads to it (part_004; the Go function's error
result is always nil). -/
def createOrganizationTree (entries : List BundleEntry) : ParentOrganizationMap :=
  let orgMap := buildOrgMap' [] entries
  (orgMap.filter fun p =>
      (filterIdentifiersBySystem p.2.identifier uraNamingSystem).length > 0).map
    fun p => (p.2, findOrganizationsLinkedToParent orgMap p.2)

/-- Modelled from the spec: Go `net/url` parsing of scheme and host is
not part of the source tree; for the URL shapes the engine handles,
the scheme is the text before the first `://` and the host the text
from there to the next slash.  Strings without `://` parse with empty
scheme and host, as `url.Parse` yields for them. -/
def goParseSchemeHost (s : String) : String × String :=
  match splitFirstSub "://".data s.data with
  | none => ("", "")
  | some (before, after) => (String.mk before, String.mk (after.takeWhile fun c => !(c = '/')))

/-- An absolute `http` or `https` URL with a non-empty host, after
lowercasing the scheme (the validity check of
`registerAdministrationDirectory` and, per the spec, of
`lib/fhirutil.BuildSourceURL`). -/
def isAbsoluteHttpURL (s : String) : Bool :=
  let p := goParseSchemeHost s
  (goToLower p.1 = "http" || goToLower p.1 = "https") && p.2 ≠ ""

/-- Modelled from the spec: `lib/fhirutil.BuildSourceURL` is not under
the source tree; the source URL fingerprint is
`sourceBaseURL/ResourceType/id`, and construction fails when the base
is not a valid absolute http(s) URL. -/
def buildSourceURL (base ty rid : String) : Except String String :=
  if isAbsoluteHttpURL base then .ok (base ++ "/" ++ ty ++ "/" ++ rid)
  else .error ("invalid base URL: " ++ base)

/-- Modelled from the spec: the reference form of
`lib/fhirutil.BuildSourceURL`, taking an already-joined
`ResourceType/id` string. -/
def buildSourceURLRef (base ref : String) : Except String String :=
  if isAbsoluteHttpURL base then .ok (base ++ "/" ++ ref)
  else .error ("invalid base URL: " ++ base)

/-- One hexadecimal digit, upper case. -/
def hexDigit (n : Nat) : Char :=
  if n < 10 then Char.ofNat (48 + n) else Char.ofNat (55 + n)

/-- Go `url.QueryEscape` on one character (ASCII range): unreserved
characters kept, space mapped to `+`, the rest percent-encoded. -/
def queryEscapeChar (c : Char) : List Char :=
  if c.isAlphanum || c = '-' || c = '_' || c = '.' || c = '~' then [c]
  else if c = ' ' then ['+']
  else ['%', hexDigit (c.toNat / 16 % 16), hexDigit (c.toNat % 16)]

/-- Modelled from the spec: Go `url.QueryEscape` (standard library),
restricted to ASCII input as produced by the engine. -/
def urlQueryEscape (s : String) : String := String.mk (s.data.flatMap queryEscapeChar)

/-- `hasURAIdentifier` checks whether a resource, as a decoded JSON
object, carries an identifier in the URA naming system (updater.go). -/
def hasURAIdentifier (fs : JFields) : Bool :=
  match fs.lookup "identifier" with
  | some (.arr l) =>
    (jlistToList l).any fun j =>
      match j with
      | .obj m => m.lookupStr "system" == some uraNamingSystem
      | _ => false
  | _ => false

/-- The rewrite step of `convertReferencesRecursive` (updater.go) for
one object: when the object has a string `reference` field of shape
`Type/id`, produce the conditional-reference string that replaces it. -/
def rewriteReference (base : String) (fs : JFields) : Except String (Option Json) :=
  match fs.lookup "reference" with
  | some (.str ref) =>
    let parts := goSplit ref "/"
    if parts.length = 2 then
      match buildSourceURLRef base ref with
      | .ok srcURL => .ok (some (.str (parts[0]! ++ "?_source=" ++ urlQueryEscape srcURL)))
      | .error e => .error ("failed to build source URL for reference: " ++ e)
    else .ok none
  | _ => .ok none

/-- The pending-rewrite value passed to the tail of a field list: a
pending rewrite is consumed by the first `reference` binding. -/
def convTailRw (rw : Option Json) (k : String) : Option Json :=
  match rw with
  | some newv => if k = "reference" then none else some newv
  | none => none

mutual

/-- `convertReferencesRecursive` (updater.go) on a JSON value: every
object's `Type/id` string `reference` field is rewritten to a
source-qualified conditional reference, recursively. -/
def convertReferencesValue (base : String) : Json → Except String Json
  | .str s => .ok (.str s)
  | .arr l =>
    match convertReferencesList base l with
    | .ok l' => .ok (.arr l')
    | .error e => .error e
  | .obj fs =>
    match rewriteReference base fs with
    | .error e => .error e
    | .ok rw =>
      match convertReferencesFields base rw fs with
      | .ok fs' => .ok (.obj fs')
      | .error e => .error e

/-- `convertReferencesRecursive` over the elements of a JSON array. -/
def convertReferencesList (base : String) : JList → Except String JList
  | .nil => .ok .nil
  | .cons j rest =>
    match convertReferencesValue base j with
    | .error e => .error e
    | .ok j' =>
      match convertReferencesList base rest with
      | .ok rest' => .ok (.cons j' rest')
      | .error e => .error e

/-- `convertReferencesRecursive` over the fields of one object.
Equivalent to the Go original, which rewrites the map entry in place
and then recurses over all values: the first `reference` binding
receives the precomputed rewrite (when one applies, consuming it for
the tail), every other value is processed recursively. -/
def convertReferencesFields (base : String) (rw : Option Json) : JFields → Except String JFields
  | .nil => .ok .nil
  | .cons k v rest =>
    match (match rw with
           | some newv => if k = "reference" then .ok newv else convertReferencesValue base v
           | none => convertReferencesValue base v : Except String Json) with
    | .error e => .error e
    | .ok v' =>
      match convertReferencesFields base (convTailRw rw k) rest with
      | .ok rest' => .ok (.cons k v' rest')
      | .error e => .error e

end

/-- The converted value of one binding (the head computation of
`convertReferencesFields`, stated separately for reasoning). -/
def convHeadValue (base : String) (rw : Option Json) (k : String) (v : Json) :
    Except String Json :=
  match rw with
  | some newv => if k = "reference" then .ok newv else convertReferencesValue base v
  | none => convertReferencesValue base v

/-- The cons equation of `convertReferencesFields`, phrased through
`convHeadValue`. -/
theorem convertReferencesFields_cons (base : String) (rw : Option Json) (k : String)
    (v : Json) (rest : JFields) :
    convertReferencesFields base rw (.cons k v rest) =
      match convHeadValue base rw k v with
      | .error e => .error e
      | .ok v' =>
        match convertReferencesFields base (convTailRw rw k) rest with
        | .ok rest' => .ok (.cons k v' rest')
        | .error e => .error e := by
  cases rw with
  | some newv =>
    by_cases hk : k = "reference" <;>
      simp [convertReferencesFields, convHeadValue, hk]
  | none => simp [convertReferencesFields, convHeadValue]

/-- `updateResourceMeta` sets `meta.source` and removes
`meta.versionId` and `meta.lastUpdated`, creating the `meta` object
when absent or not an object (updater.go). -/
def updateResourceMeta (fs : JFields) (source : String) : JFields :=
  match fs.lookup "meta" with
  | some (.obj ms) =>
    fs.set "meta" (.obj (((ms.set "source" (.str source)).erase "versionId").erase "lastUpdated"))
  | _ => fs.set "meta" (.obj (.cons "source" (.str source) .nil))

/-- The validation rules passed to the transaction builder
(Go `ValidationRules`). -/
structure ValidationRules where
  allowedResourceTypes : List String := []
  deriving DecidableEq, Repr

/-- The type of the per-resource validator (`ValidateUpdate`,
component F of the spec).  Its implementation is outside the source
tree under scrutiny, so the transaction builder is parameterized over
it; the theorems below hold for every validator. -/
abbrev Validator :=
  ValidationRules → Json → ParentOrganizationMap → List BundleEntry → Except String Unit

/-- The LRZa name-authority rule of `buildUpdateTransaction`
(updater.go): a URA-bearing Organization from a provider
(non-discoverable) directory has its `name` removed. -/
def stripOrganizationName (resourceType : String) (disc : Bool) (fs0 : JFields) : JFields :=
  if resourceType = "Organization" && !disc && hasURAIdentifier fs0 then fs0.erase "name"
  else fs0

/-- The discoverability filter of `buildUpdateTransaction`
(updater.go): content of a discoverable directory is synced only when
it is an Endpoint carrying the mCSD directory payload coding. -/
def computeDoSync (resourceType : String) (disc : Bool) (body : Json) : Except String Bool :=
  if disc then
    if resourceType = "Endpoint" then
      match endpointOfJson body with
      | none => .error "failed to unmarshal Endpoint resource"
      | some ep => .ok (codablesIncludesCode ep.payloadType payloadCoding)
    else .ok false
  else .ok true

/-- `buildUpdateTransaction` (updater.go): turn one pulled bundle
entry into a conditional PUT or DELETE appended to the transaction
bundle, or an error.  Returns the resource type together with the new
transaction entry list (the Go function mutates `tx` in place). -/
def buildUpdateTransaction (vUpd : Validator) (tx : List BundleEntry) (entry : BundleEntry)
    (validationRules : ValidationRules) (parentOrganizationMap : ParentOrganizationMap)
    (allHealthcareServices : List BundleEntry) (isDiscoverableDirectory : Bool)
    (sourceBaseURL : String) : Except String (String × List BundleEntry) :=
  match entry.fullUrl with
  | none => .error "missing fullUrl field"
  | some _ =>
  match entry.request with
  | none => .error "missing request field"
  | some req =>
  if req.method = .delete then
    if (goSplit req.url "/").length < 2 then .error ("invalid DELETE URL format: " ++ req.url)
    else if !validationRules.allowedResourceTypes.contains ((goSplit req.url "/")[0]!) then
      .error ("resource type " ++ (goSplit req.url "/")[0]! ++ " not allowed")
    else
      match buildSourceURL sourceBaseURL ((goSplit req.url "/")[0]!) ((goSplit req.url "/")[1]!) with
      | .error e => .error ("failed to build source URL for DELETE: " ++ e)
      | .ok sourceURL =>
        .ok ((goSplit req.url "/")[0]!,
          tx ++ [{ request := some { url := (goSplit req.url "/")[0]! ++ "?_source=" ++
                                       urlQueryEscape sourceURL,
                                     method := .delete } }])
  else
    match entry.resource with
    | none => .error "missing resource field for non-DELETE operation"
    | some body =>
    match body with
    | .obj fs0 =>
      match fs0.lookupStr "resourceType" with
      | none => .error "not a valid resourceType"
      | some resourceType =>
        match vUpd validationRules body parentOrganizationMap allHealthcareServices with
        | .error e => .error e
        | .ok _ =>
          match computeDoSync resourceType isDiscoverableDirectory body with
          | .error e => .error e
          | .ok doSync =>
            if !doSync then .ok (resourceType, tx)
            else
              match (stripOrganizationName resourceType isDiscoverableDirectory fs0).lookupStr
                  "id" with
              | none => .error "resource missing ID field"
              | some resourceID =>
                match buildSourceURL sourceBaseURL resourceType resourceID with
                | .error e => .error ("failed to build source URL: " ++ e)
                | .ok sourceURL =>
                  match convertReferencesValue sourceBaseURL
                      (.obj ((updateResourceMeta
                        (stripOrganizationName resourceType isDiscoverableDirectory fs0)
                        sourceURL).erase "id")) with
                  | .error e => .error ("failed to convert references: " ++ e)
                  | .ok newBody =>
                    .ok (resourceType,
                      tx ++ [{ resource := some newBody,
                               request := some { url := resourceType ++ "?_source=" ++
                                                   urlQueryEscape sourceURL,
                                                 method := .put } }])
    | _ => .error "failed to unmarshal resource"

/-- The resource types pulled from root (discoverable) directories
(part_004 `rootDirectoryResourceTypes`). -/
def rootDirectoryResourceTypes : List String := ["Organization", "Endpoint"]

/-- The default resource-type whitelist for discovered directories
(part_004 `defaultDirectoryResourceTypes`). -/
def defaultDirectoryResourceTypes : List String :=
  ["Organization", "Endpoint", "Location", "HealthcareService", "PractitionerRole", "Practitioner"]

/-- The safety limit on the number of entries a paginated query may
return (part_004 `maxUpdateEntries`). -/
def maxUpdateEntries : Nat := 1000

/-- The engine configuration (Go `Config`), restricted to the fields
the modelled control flow reads.  `AdministrationDirectories` is a Go
map of named directory configs; only its base URLs matter, in the
(arbitrary) iteration order of the map. -/
structure ModelConfig where
  administrationDirectories : List String := []
  queryDirectoryFHIRBaseURL : String := ""
  excludeAdminDirectories : List String := []
  directoryResourceTypes : List String := defaultDirectoryResourceTypes
  snapshotModeSupport : Bool := false
  deriving DecidableEq, Repr

/-- A registered source directory (Go `administrationDirectory`). -/
structure AdminDirectory where
  fhirBaseURL : String
  resourceTypes : List String
  discover : Bool
  sourceURL : String
  authoritativeUra : String
  deriving DecidableEq, Repr

/-- The mutable component state (Go `Component`): the directory
registry and the per-directory cursor map (`lastUpdateTimes`). -/
structure CompState where
  administrationDirectories : List AdminDirectory := []
  lastUpdateTimes : List (String × String) := []
  deriving DecidableEq, Repr

/-- Go `strings.TrimRight(s, "/")`: remove every trailing slash. -/
def trimTrailingSlashes (s : String) : String :=
  String.mk ((s.data.reverse.dropWhile fun c => c = '/').reverse)

/-- `registerAdministrationDirectory` (part_004): validate the base
URL, skip silently when it matches the exclusion list after trimming
trailing slashes, skip silently when a directory with the same
`(fhirBaseURL, authoritativeUra)` already exists, and append
otherwise. -/
def registerAdministrationDirectory (cfg : ModelConfig) (dirs : List AdminDirectory)
    (fhirBaseURL : String) (resourceTypes : List String) (discover : Bool)
    (sourceURL : String) (authoritativeUra : String) : Except String (List AdminDirectory) :=
  if !isAbsoluteHttpURL fhirBaseURL then
    .error ("invalid FHIR base URL (url=" ++ fhirBaseURL ++ ")")
  else
    let trimmedFHIRBaseURL := trimTrailingSlashes fhirBaseURL
    if cfg.excludeAdminDirectories.any fun ex => trimTrailingSlashes ex = trimmedFHIRBaseURL then
      .ok dirs
    else if dirs.any fun d => d.fhirBaseURL = fhirBaseURL && d.authoritativeUra = authoritativeUra then
      .ok dirs
    else
      .ok (dirs ++ [{ fhirBaseURL := fhirBaseURL, resourceTypes := resourceTypes,
                      discover := discover, sourceURL := sourceURL,
                      authoritativeUra := authoritativeUra }])

/-- `unregisterAdministrationDirectory` (part_004): remove every
directory whose `sourceURL` equals the given bundle-entry fullUrl. -/
def unregisterAdministrationDirectory (dirs : List AdminDirectory) (fullUrl : String) :
    List AdminDirectory :=
  dirs.filter fun dir => !(dir.sourceURL = fullUrl)

/-- One entry of the `processEndpointDeletes` scan (part_004): a
DELETE on an Endpoint URL carrying a fullUrl unregisters the
directories registered under that fullUrl. -/
def processEndpointDeletesStep (dirs : List AdminDirectory) (entry : BundleEntry) :
    List AdminDirectory :=
  match entry.request, entry.fullUrl with
  | some req, some fu =>
    if req.method = .delete then
      if (goSplit req.url "/").length ≥ 2 && (goSplit req.url "/").headD "" = "Endpoint" then
        unregisterAdministrationDirectory dirs fu
      else dirs
    else dirs
  | _, _ => dirs

/-- `processEndpointDeletes` (part_004): for every DELETE entry on an
Endpoint URL that carries a fullUrl, unregister the directories
registered under that fullUrl. -/
def processEndpointDeletes (dirs : List AdminDirectory) : List BundleEntry → List AdminDirectory
  | [] => dirs
  | entry :: rest => processEndpointDeletes (processEndpointDeletesStep dirs entry) rest

/-- The root-directory registration loop of `New` (part_004): each
configured administration directory is registered as a discoverable
root with resource types `rootDirectoryResourceTypes`, an empty
`sourceURL` and an empty authoritative URA. -/
def registerRoots (cfg : ModelConfig) (dirs : List AdminDirectory) :
    List String → Except String (List AdminDirectory)
  | [] => .ok dirs
  | u :: rest =>
    match registerAdministrationDirectory cfg dirs u rootDirectoryResourceTypes true "" "" with
    | .error e => .error ("register root administration directory: " ++ e)
    | .ok dirs' => registerRoots cfg dirs' rest

/-- `New` (part_004), restricted to registry construction: the OAuth2
client, state-file loading and FHIR-client wiring are I/O and are not
modelled.  The cursor map starts empty (no state file). -/
def newComponentState (cfg : ModelConfig) : Except String CompState :=
  match registerRoots cfg [] cfg.administrationDirectories with
  | .error e => .error e
  | .ok dirs => .ok { administrationDirectories := dirs, lastUpdateTimes := [] }

/-- The remote FHIR servers consulted during one run, as an oracle:
`history` answers a `_history` query for one resource type and an
optional `_since` value with the union of all pages and the first
page's bundle `meta.lastUpdated`; `search` answers a current-state
search; `orgSearch` answers the separate Organization query of the
tree builder; `submit` answers a posted transaction bundle;
`fallbackTime` is the formatted `queryStartTime - clockSkewBuffer`
used when the bundle carries no `meta.lastUpdated`. -/
structure DirOracle where
  history : String → Option String → Except String (List BundleEntry × Option String)
  search : String → Except String (List BundleEntry × Option String)
  orgSearch : Except String (List BundleEntry)
  submit : List BundleEntry → Except String (List BundleEntry)
  fallbackTime : String

/-- Outcome of the history-mode gather loop of `updateFromDirectory`:
entries gathered, fallback to snapshot mode requested by a 410, or a
fatal error. -/
inductive GatherOutcome where
  | collected (entries : List BundleEntry) (firstMeta : Option String)
  | snapshotFallback
  | failed (msg : String)
  deriving Repr

/-- The history-mode loop of `updateFromDirectory` (part_004): query
`_history` per resource type, keep the first page set's
`meta.lastUpdated` of the first type, fall back to snapshot mode on a
410 when snapshot support is enabled, and fail otherwise. -/
def historyLoopAux (o : DirOracle) (support : Bool) (since : Option String)
    (acc : List BundleEntry) (firstMeta : Option String) (first : Bool) :
    List String → GatherOutcome
  | [] => .collected acc firstMeta
  | ty :: rest =>
    match o.history ty since with
    | .error e =>
      if is410GoneError (some e) then
        if support then .snapshotFallback
        else .failed ("410 Gone: history too old for " ++ ty ++
          " and Snapshot Mode is disabled, cannot sync")
      else .failed ("failed to query " ++ ty ++ " history: " ++ e)
    | .ok (es, meta) =>
      historyLoopAux o support since (acc ++ es) (if first then meta else firstMeta) false rest

/-- The history-mode loop, started with an empty accumulator. -/
def historyLoop (o : DirOracle) (support : Bool) (since : Option String)
    (types : List String) : GatherOutcome :=
  historyLoopAux o support since [] none true types

/-- The synthetic request decoration of snapshot mode (part_004):
search results carry no request, so a PUT on `Type/id` is attached. -/
def synthesizeRequest (ty : String) (e : BundleEntry) : BundleEntry :=
  match e.request with
  | some _ => e
  | none =>
    let rid :=
      match e.resource with
      | some j =>
        match extractResourceInfo j with
        | some info => info.id
        | none => ""
      | none => ""
    { e with request := some { method := .put, url := ty ++ "/" ++ rid } }

/-- The snapshot-mode loop of `updateFromDirectory` (part_004): a
current-state search per resource type, with synthetic PUT requests
attached to the results. -/
def snapshotLoopAux (o : DirOracle) (acc : List BundleEntry) (firstMeta : Option String)
    (first : Bool) : List String → Except String (List BundleEntry × Option String)
  | [] => .ok (acc, firstMeta)
  | ty :: rest =>
    match o.search ty with
    | .error e => .error ("failed to query " ++ ty ++ ": " ++ e)
    | .ok (es, meta) =>
      snapshotLoopAux o (acc ++ es.map (synthesizeRequest ty)) (if first then meta else firstMeta)
        false rest

/-- The snapshot-mode loop, started with an empty accumulator. -/
def snapshotLoop (o : DirOracle) (types : List String) :
    Except String (List BundleEntry × Option String) :=
  snapshotLoopAux o [] none true types

/-- Modelled from the spec: `ValidateParentOrganizations` (component F
rule 1) is not under the source tree; a root organization carrying
more than one URA identifier fails validation for the whole tree. -/
def validateParentOrganizations (m : ParentOrganizationMap) : Except String Unit :=
  if m.any fun p => (filterIdentifiersBySystem p.1.identifier uraNamingSystem).length > 1 then
    .error "organization carries multiple URA identifiers"
  else .ok ()

/-- `ensureParentOrganizationsMap` (part_004): query the source's
organizations, build the tree, and when the directory carries an
authoritative URA keep only the matching root. -/
def ensureParentOrganizationsMap (o : DirOracle) (authoritativeUra : String) :
    Except String ParentOrganizationMap :=
  match o.orgSearch with
  | .error e => .error e
  | .ok orgEntries =>
    let m := createOrganizationTree orgEntries
    .ok (if authoritativeUra = "" then m
         else m.filter fun p =>
           (filterIdentifiersBySystem p.1.identifier uraNamingSystem).any fun ura =>
             ura.value = some authoritativeUra)

/-- Modelled from the spec: `extractReferenceID` is not under the
source tree; it resolves a literal reference of shape `Type/id` (or a
bare id) to the id, i.e. the last slash-separated segment. -/
def extractReferenceID (ref : String) : String := (goSplit ref "/").getLastD ""

/-- The endpoint-collection loop of `discoverAndRegisterEndpoints`
(part_004): for one parent organization, collect from the pulled
entries the Endpoint resources whose id one of the parent's endpoint
references points at, keyed by bundle fullUrl (Go map assignment). -/
def buildDiscoveredEndpoints (parentOrg : Organization) :
    List BundleEntry → List (String × Endpoint)
  | [] => []
  | entry :: rest =>
    let m := buildDiscoveredEndpoints parentOrg rest
    match entry.resource with
    | none => m
    | some j =>
      match endpointOfJson j with
      | none => m
      | some ep =>
        match ep.id with
        | none => m
        | some endpointID =>
          if parentOrg.endpoint.any fun pe =>
              match pe.reference with
              | some r => extractReferenceID r = endpointID
              | none => false
          then
            match entry.fullUrl with
            | some fu => assocUpd m fu ep
            | none => m
          else m

/-- The registration loop of `discoverAndRegisterEndpoints`
(part_004): register every collected Endpoint that carries the mCSD
directory payload coding as a non-discoverable directory; registration
failures become warnings. -/
def registerDiscovered (cfg : ModelConfig) (ura : String)
    (dirs : List AdminDirectory) (warnings : List String) :
    List (String × Endpoint) → List AdminDirectory × List String
  | [] => (dirs, warnings)
  | (fu, ep) :: rest =>
    if codablesIncludesCode ep.payloadType payloadCoding then
      match registerAdministrationDirectory cfg dirs ep.address cfg.directoryResourceTypes false
          fu ura with
      | .error e =>
        registerDiscovered cfg ura dirs
          (warnings ++ ["failed to register discovered mCSD Directory at " ++ ep.address ++
            ": " ++ e]) rest
      | .ok dirs' => registerDiscovered cfg ura dirs' warnings rest
    else registerDiscovered cfg ura dirs warnings rest

/-- `discoverAndRegisterEndpoints` (part_004): for every parent
organization of the tree that carries a URA value and endpoint
references, register the matching pulled Endpoints that carry the
mCSD directory payload coding. -/
def discoverAndRegisterEndpoints (cfg : ModelConfig) (entries : List BundleEntry)
    (dirs : List AdminDirectory) (warnings : List String) :
    ParentOrganizationMap → List AdminDirectory × List String
  | [] => (dirs, warnings)
  | (parentOrg, _) :: rest =>
    let step :=
      match filterIdentifiersBySystem parentOrg.identifier uraNamingSystem with
      | [] => (dirs, warnings)
      | u0 :: _ =>
        match u0.value with
        | none => (dirs, warnings)
        | some ura =>
          if parentOrg.endpoint.isEmpty then (dirs, warnings)
          else registerDiscovered cfg ura dirs warnings (buildDiscoveredEndpoints parentOrg entries)
    discoverAndRegisterEndpoints cfg entries step.1 step.2 rest

/-- A per-source update report (Go `DirectoryUpdateReport`). -/
structure DirectoryUpdateReport where
  countCreated : Nat := 0
  countUpdated : Nat := 0
  countDeleted : Nat := 0
  warnings : List String := []
  errors : List String := []
  deriving DecidableEq, Repr

/-- The per-entry transaction-building loop of `updateFromDirectory`
(part_004): entries without a request and entries the builder rejects
become warnings, the rest extend the transaction. -/
def buildTxLoop (vUpd : Validator) (rules : ValidationRules) (pm : ParentOrganizationMap)
    (hcs : List BundleEntry) (disc : Bool) (base : String)
    (tx : List BundleEntry) (warnings : List String) (i : Nat) :
    List BundleEntry → List BundleEntry × List String
  | [] => (tx, warnings)
  | entry :: rest =>
    match entry.request with
    | none =>
      buildTxLoop vUpd rules pm hcs disc base tx
        (warnings ++ ["Skipping entry with no request: #" ++ toString i]) (i + 1) rest
    | some _ =>
      match buildUpdateTransaction vUpd tx entry rules pm hcs disc base with
      | .error e =>
        buildTxLoop vUpd rules pm hcs disc base tx
          (warnings ++ ["entry #" ++ toString i ++ ": " ++ e]) (i + 1) rest
      | .ok (_, tx') => buildTxLoop vUpd rules pm hcs disc base tx' warnings (i + 1) rest

/-- Go `strings.HasPrefix(s, pre)`. -/
def goStartsWith (s pre : String) : Bool := listStartsWith pre.data s.data

/-- The transaction-response classification loop of
`updateFromDirectory` (part_004): count 201/200/204 response statuses
as created/updated/deleted, warn on anything else. -/
def countResponses (report : DirectoryUpdateReport) (i : Nat) :
    List BundleEntry → DirectoryUpdateReport
  | [] => report
  | entry :: rest =>
    match entry.response with
    | none =>
      countResponses
        { report with warnings := report.warnings ++ ["Skipping entry with no response: #" ++ toString i] }
        (i + 1) rest
    | some resp =>
      if goStartsWith resp.status "201" then
        countResponses { report with countCreated := report.countCreated + 1 } (i + 1) rest
      else if goStartsWith resp.status "200" then
        countResponses { report with countUpdated := report.countUpdated + 1 } (i + 1) rest
      else if goStartsWith resp.status "204" then
        countResponses { report with countDeleted := report.countDeleted + 1 } (i + 1) rest
      else
        countResponses
          { report with warnings := report.warnings ++ ["Unknown HTTP response status " ++ resp.status] }
          (i + 1) rest

/-- The tail of `updateFromDirectory` (part_004) after entries have
been gathered (and, in snapshot mode, the cursor entry deleted):
deduplicate, collect the lenient HealthcareService decodings,
pre-scan Endpoint DELETEs, build and validate the organization tree,
build the transaction, run discovery, submit, classify responses and
finally advance the cursor. -/
def afterGather (vUpd : Validator) (env : String → DirOracle) (cfg : ModelConfig) (s : CompState)
    (d : AdminDirectory) (directoryKey : String) (entries : List BundleEntry)
    (firstMeta : Option String) : Except String DirectoryUpdateReport × CompState :=
  let o := env d.fhirBaseURL
  let deduplicatedEntries := deduplicateHistoryEntries entries
  let allHealthcareServices := entries.filter fun e =>
    match e.resource with
    | some (.obj _) => true
    | _ => false
  let s1 :=
    if d.discover then
      { s with administrationDirectories :=
          processEndpointDeletes s.administrationDirectories deduplicatedEntries }
    else s
  match ensureParentOrganizationsMap o d.authoritativeUra with
  | .error e => (.error ("failed to build parent organization map: " ++ e), s1)
  | .ok pm =>
    match validateParentOrganizations pm with
    | .error e => (.error ("parent organization validation failed: " ++ e), s1)
    | .ok _ =>
      let built := buildTxLoop vUpd { allowedResourceTypes := d.resourceTypes } pm
        allHealthcareServices d.discover d.fhirBaseURL [] [] 0 deduplicatedEntries
      let tx := built.1
      let disco :=
        if d.discover then
          discoverAndRegisterEndpoints cfg entries s1.administrationDirectories built.2 pm
        else (s1.administrationDirectories, built.2)
      let s2 := { s1 with administrationDirectories := disco.1 }
      let report0 : DirectoryUpdateReport := { warnings := disco.2 }
      if tx.isEmpty then (.ok report0, s2)
      else
        match o.submit tx with
        | .error e => (.error ("failed to apply mCSD update to query directory: " ++ e), s2)
        | .ok txResult =>
          let report := countResponses report0 0 txResult
          let nextSyncTime := firstMeta.getD o.fallbackTime
          (.ok report,
           { s2 with lastUpdateTimes := assocUpd s2.lastUpdateTimes directoryKey nextSyncTime })

/-- `updateFromDirectory` (part_004): one source's sync.  Mode choice
follows the cursor and `SnapshotModeSupport`; in snapshot mode the
cursor entry is deleted right after the snapshot queries succeed.
`url.Parse` failures on the base URLs (possible in Go only for URLs
with control characters) are not modelled. -/
def updateFromDirectory (vUpd : Validator) (env : String → DirOracle) (cfg : ModelConfig)
    (s : CompState) (d : AdminDirectory) : Except String DirectoryUpdateReport × CompState :=
  let o := env d.fhirBaseURL
  let directoryKey := makeDirectoryKey d.fhirBaseURL d.authoritativeUra
  let lastUpdate := alookup directoryKey s.lastUpdateTimes
  let gathered : GatherOutcome :=
    if lastUpdate.isSome then historyLoop o cfg.snapshotModeSupport lastUpdate d.resourceTypes
    else if !cfg.snapshotModeSupport then historyLoop o false none d.resourceTypes
    else .snapshotFallback
  match gathered with
  | .failed e => (.error e, s)
  | .collected entries firstMeta => afterGather vUpd env cfg s d directoryKey entries firstMeta
  | .snapshotFallback =>
    match snapshotLoop o d.resourceTypes with
    | .error e => (.error e, s)
    | .ok (entries, firstMeta) =>
      let s1 := { s with lastUpdateTimes := s.lastUpdateTimes.filter fun p => !(p.1 = directoryKey) }
      afterGather vUpd env cfg s1 d directoryKey entries firstMeta

/-- The per-source report map returned by a run, keyed by
`makeDirectoryKey` (Go `UpdateReport`). -/
abbrev UpdateReport := List (String × DirectoryUpdateReport)

/-- The iteration of `update` (part_004): index `i` walks the registry
while sources mutate it; a failed source contributes its error to its
report block and the loop continues.  `fuel` bounds the number of
iterations (the Go loop terminates because registration is idempotent);
`processed` records the directories in processing order. -/
def updateLoop (vUpd : Validator) (env : String → DirOracle) (cfg : ModelConfig)
    (fuel i : Nat) (acc : UpdateReport) (processed : List AdminDirectory) (s : CompState) :
    Option (UpdateReport × List AdminDirectory × CompState) :=
  match s.administrationDirectories[i]? with
  | none => some (acc, processed, s)
  | some d =>
    match fuel with
    | 0 => none
    | fuel' + 1 =>
      let step := updateFromDirectory vUpd env cfg s d
      let report :=
        match step.1 with
        | .ok r => r
        | .error e => { errors := [e] }
      updateLoop vUpd env cfg fuel' (i + 1)
        (assocUpd acc (makeDirectoryKey d.fhirBaseURL d.authoritativeUra) report)
        (processed ++ [d]) step.2

/-- `update` (part_004): run every registered source in registry
order (the Go mutex is process-local and not modelled), returning the
report map, the processing order and the final state. -/
def update (vUpd : Validator) (env : String → DirOracle) (cfg : ModelConfig) (fuel : Nat)
    (s : CompState) : Option (UpdateReport × List AdminDirectory × CompState) :=
  updateLoop vUpd env cfg fuel 0 [] [] s

/-- `queryFHIR` (part_004), pagination part: the Go function issues
the search and then follows `next` links through
`fhirclient.Paginate`, appending each page (the first one included)
and aborting with an error once the accumulated entries reach
`maxUpdateEntries`.  The page sequence returned by the server is the
function's argument. -/
def queryFHIRPages (acc : List BundleEntry) : List (List BundleEntry) → Except String (List BundleEntry)
  | [] => .ok acc
  | page :: rest =>
    let acc' := acc ++ page
    if maxUpdateEntries ≤ acc'.length then
      .error ("too many entries (" ++ toString acc'.length ++ "), aborting update to prevent excessive memory usage")
    else queryFHIRPages acc' rest

/-- `queryFHIR` over a page sequence, started empty. -/
def queryFHIR (pages : List (List BundleEntry)) : Except String (List BundleEntry) :=
  queryFHIRPages [] pages

/-- The `meta.source` element of a resource body, as read back from an
emitted transaction entry. -/
def metaSourceOf (j : Json) : Option String :=
  match j with
  | .obj fs =>
    match fs.lookup "meta" with
    | some (.obj ms) => ms.lookupStr "source"
    | _ => none
  | _ => none

/-- Whether a bundle entry's body decodes as an Endpoint carrying the
mCSD directory payload coding (the `doSync` exception of
`buildUpdateTransaction`). -/
def mcsdDirectoryEndpointEntry (entry : BundleEntry) : Bool :=
  match entry.resource with
  | some j =>
    match endpointOfJson j with
    | some ep => codablesIncludesCode ep.payloadType payloadCoding
    | none => false
  | none => false

/-- A validator accepting every resource, used to instantiate the
abstract validator parameter in concrete runs. -/
def acceptAllValidator : Validator := fun _ _ _ _ => .ok ()

theorem JFields.lookup_set_self : ∀ (fs : JFields) (k : String) (v : Json),
    (fs.set k v).lookup k = some v
  | .nil, k, v => by simp [JFields.set, JFields.lookup]
  | .cons k' v' rest, k, v => by
    by_cases h : k' = k <;>
      simp [JFields.set, JFields.lookup, h, JFields.lookup_set_self rest k v]

theorem JFields.lookup_set_ne : ∀ (fs : JFields) (k k' : String) (v : Json), k' ≠ k →
    (fs.set k v).lookup k' = fs.lookup k'
  | .nil, k, k', v, h => by simp [JFields.set, JFields.lookup, Ne.symm h]
  | .cons k0 v0 rest, k, k', v, h => by
    by_cases h0 : k0 = k
    · subst h0
      simp [JFields.set, JFields.lookup, Ne.symm h]
    · simp [JFields.set, JFields.lookup, h0, JFields.lookup_set_ne rest k k' v h]

theorem JFields.lookup_erase_self : ∀ (fs : JFields) (k : String),
    (fs.erase k).lookup k = none
  | .nil, k => by simp [JFields.erase, JFields.lookup]
  | .cons k' v' rest, k => by
    by_cases h : k' = k <;>
      simp [JFields.erase, JFields.lookup, h, JFields.lookup_erase_self rest k]

theorem JFields.lookup_erase_ne : ∀ (fs : JFields) (k k' : String), k' ≠ k →
    (fs.erase k).lookup k' = fs.lookup k'
  | .nil, k, k', h => by simp [JFields.erase, JFields.lookup]
  | .cons k0 v0 rest, k, k', h => by
    by_cases h0 : k0 = k
    · subst h0
      simp [JFields.erase, JFields.lookup, Ne.symm h,
        JFields.lookup_erase_ne rest k0 k' h]
    · simp [JFields.erase, JFields.lookup, h0, JFields.lookup_erase_ne rest k k' h]

theorem convertReferencesValue_str (base s : String) :
    convertReferencesValue base (.str s) = .ok (.str s) := by
  simp [convertReferencesValue]

/-- Inversion of field conversion at a cons cell: the head key is
kept, its head value converts successfully, and the tail converts
successfully under the remaining pending rewrite. -/
theorem convertReferencesFields_cons_ok (base k : String) (v : Json) (rest : JFields)
    (rw : Option Json) (fs' : JFields)
    (hok : convertReferencesFields base rw (.cons k v rest) = .ok fs') :
    ∃ v' rest', fs' = .cons k v' rest' ∧ convHeadValue base rw k v = .ok v' ∧
      convertReferencesFields base (convTailRw rw k) rest = .ok rest' := by
  rw [convertReferencesFields_cons] at hok
  cases hv : convHeadValue base rw k v with
  | error e => rw [hv] at hok; exact absurd hok (by simp)
  | ok v' =>
    rw [hv] at hok
    cases hrec : convertReferencesFields base (convTailRw rw k) rest with
    | error e => rw [hrec] at hok; exact absurd hok (by simp)
    | ok rest' =>
      rw [hrec] at hok
      simp only [Except.ok.injEq] at hok
      exact ⟨v', rest', hok.symm, rfl, rfl⟩

/-- The converted head value of a binding whose key is not
`reference` is the plain value conversion. -/
theorem convHeadValue_ne (base k : String) (rw : Option Json) (v : Json)
    (hk : k ≠ "reference") : convHeadValue base rw k v = convertReferencesValue base v := by
  cases rw with
  | some newv => simp [convHeadValue, hk]
  | none => simp [convHeadValue]

/-- Field conversion preserves key absence. -/
theorem convertReferencesFields_lookup_none : ∀ (fs : JFields) (rw : Option Json)
    (fs' : JFields) (base k : String), convertReferencesFields base rw fs = .ok fs' →
    fs.lookup k = none → fs'.lookup k = none
  | .nil, rw, fs', base, k, hok, _ => by
    simp only [convertReferencesFields, Except.ok.injEq] at hok
    simp [← hok, JFields.lookup]
  | .cons k0 v0 rest, rw, fs', base, k, hok, hnone => by
    have hk0 : ¬ k0 = k := by
      intro h
      simp [JFields.lookup, h] at hnone
    have hrest : rest.lookup k = none := by
      simpa [JFields.lookup, hk0] using hnone
    obtain ⟨v', rest', hfs', _, hrec⟩ :=
      convertReferencesFields_cons_ok base k0 v0 rest rw fs' hok
    subst hfs'
    simp [JFields.lookup, hk0,
      convertReferencesFields_lookup_none rest _ rest' base k hrec hrest]

/-- Field conversion maps the value of every key other than
`reference` through the value conversion. -/
theorem convertReferencesFields_lookup_ne : ∀ (fs : JFields) (rw : Option Json)
    (fs' : JFields) (base k : String) (v : Json), k ≠ "reference" →
    convertReferencesFields base rw fs = .ok fs' → fs.lookup k = some v →
    ∃ v', convertReferencesValue base v = .ok v' ∧ fs'.lookup k = some v'
  | .nil, rw, fs', base, k, v, _, hok, hsome => by
    simp [JFields.lookup] at hsome
  | .cons k0 v0 rest, rw, fs', base, k, v, hkref, hok, hsome => by
    obtain ⟨v', rest', hfs', hhead, hrec⟩ :=
      convertReferencesFields_cons_ok base k0 v0 rest rw fs' hok
    subst hfs'
    by_cases hk0 : k0 = k
    · subst hk0
      have hv0 : v0 = v := by simpa [JFields.lookup] using hsome
      subst hv0
      rw [convHeadValue_ne base k0 rw v0 hkref] at hhead
      exact ⟨v', hhead, by simp [JFields.lookup]⟩
    · have hrest : rest.lookup k = some v := by
        simpa [JFields.lookup, hk0] using hsome
      obtain ⟨w, hw, hl⟩ :=
        convertReferencesFields_lookup_ne rest _ rest' base k v hkref hrec hrest
      exact ⟨w, hw, by simp [JFields.lookup, hk0, hl]⟩

/-- Value conversion on an object succeeds through the rewrite stage
and the field conversion. -/
theorem convertReferencesValue_obj_ok (base : String) (ms : JFields) (w : Json)
    (hok : convertReferencesValue base (.obj ms) = .ok w) :
    ∃ rw ms', rewriteReference base ms = .ok rw ∧
      convertReferencesFields base rw ms = .ok ms' ∧ w = .obj ms' := by
  simp only [convertReferencesValue] at hok
  cases hrw : rewriteReference base ms with
  | error e => simp [hrw] at hok
  | ok rw =>
    simp only [hrw] at hok
    cases hfs : convertReferencesFields base rw ms with
    | error e => simp [hfs] at hok
    | ok ms' =>
      simp [hfs] at hok
      exact ⟨rw, ms', rfl, hfs, hok.symm⟩

/-- Inversion of `buildUpdateTransaction` on a successful non-DELETE
entry: the returned type is the body's `resourceType`; when the
discoverability filter rejects, the transaction is unchanged, and
otherwise exactly the converted resource is appended. -/
theorem buildUpdateTransaction_nonDelete_ok (vUpd : Validator) (tx : List BundleEntry)
    (entry : BundleEntry) (rules : ValidationRules) (pm : ParentOrganizationMap)
    (hcs : List BundleEntry) (disc : Bool) (base ty : String) (tx' : List BundleEntry)
    (fu : String) (req : BundleEntryRequest) (fs0 : JFields)
    (hfu : entry.fullUrl = some fu)
    (hreq : entry.request = some req)
    (hnd : ¬ req.method = .delete)
    (hres : entry.resource = some (.obj fs0))
    (hok : buildUpdateTransaction vUpd tx entry rules pm hcs disc base = .ok (ty, tx')) :
    fs0.lookupStr "resourceType" = some ty ∧
    ∃ doSync, computeDoSync ty disc (.obj fs0) = .ok doSync ∧
      ((doSync = false ∧ tx' = tx) ∨
       (doSync = true ∧ ∃ origId srcURL newBody,
          (stripOrganizationName ty disc fs0).lookupStr "id" = some origId ∧
          buildSourceURL base ty origId = .ok srcURL ∧
          convertReferencesValue base
            (.obj ((updateResourceMeta (stripOrganizationName ty disc fs0) srcURL).erase "id")) =
            .ok newBody ∧
          tx' = tx ++ [{ resource := some newBody,
                         request := some { url := ty ++ "?_source=" ++ urlQueryEscape srcURL,
                                           method := .put } }])) := by
  rw [buildUpdateTransaction] at hok
  simp only [hfu, hreq, hres, if_neg (show ¬ req.method = HTTPVerb.delete from hnd)] at hok
  cases hty : fs0.lookupStr "resourceType" with
  | none => simp [hty] at hok
  | some ty0 =>
    simp only [hty] at hok
    cases hval : vUpd rules (.obj fs0) pm hcs with
    | error e => simp [hval] at hok
    | ok u =>
      simp only [hval] at hok
      cases hds : computeDoSync ty0 disc (.obj fs0) with
      | error e => simp [hds] at hok
      | ok doSync =>
        simp only [hds] at hok
        cases doSync with
        | false =>
          simp only [Bool.not_false, if_true, Except.ok.injEq, Prod.mk.injEq] at hok
          obtain ⟨h1, h2⟩ := hok
          subst h1
          exact ⟨rfl, false, hds, Or.inl ⟨rfl, h2.symm⟩⟩
        | true =>
          simp only [Bool.not_true, Bool.false_eq_true, if_false] at hok
          cases hid : (stripOrganizationName ty0 disc fs0).lookupStr "id" with
          | none => simp [hid] at hok
          | some origId =>
            simp only [hid] at hok
            cases hsrc : buildSourceURL base ty0 origId with
            | error e => simp [hsrc] at hok
            | ok srcURL =>
              simp only [hsrc] at hok
              cases hconv : convertReferencesValue base
                  (.obj ((updateResourceMeta (stripOrganizationName ty0 disc fs0)
                    srcURL).erase "id")) with
              | error e => simp [hconv] at hok
              | ok newBody =>
                simp only [hconv, Except.ok.injEq, Prod.mk.injEq] at hok
                obtain ⟨h1, h2⟩ := hok
                subst h1
                exact ⟨rfl, true, hds,
                  Or.inr ⟨rfl, origId, srcURL, newBody, hid, hsrc, hconv, h2.symm⟩⟩

/-- Inversion of `buildUpdateTransaction` on a successful DELETE
entry: a conditional DELETE is always appended, whatever the
discoverability of the source. -/
theorem buildUpdateTransaction_delete_ok (vUpd : Validator) (tx : List BundleEntry)
    (entry : BundleEntry) (rules : ValidationRules) (pm : ParentOrganizationMap)
    (hcs : List BundleEntry) (disc : Bool) (base ty : String) (tx' : List BundleEntry)
    (fu : String) (req : BundleEntryRequest)
    (hfu : entry.fullUrl = some fu)
    (hreq : entry.request = some req)
    (hnd : req.method = .delete)
    (hok : buildUpdateTransaction vUpd tx entry rules pm hcs disc base = .ok (ty, tx')) :
    ∃ srcURL, tx' = tx ++
      [{ request := some { url := ty ++ "?_source=" ++ urlQueryEscape srcURL,
                           method := .delete } }] := by
  rw [buildUpdateTransaction] at hok
  simp only [hfu, hreq, if_pos (show req.method = HTTPVerb.delete from hnd)] at hok
  by_cases hlen : (goSplit req.url "/").length < 2
  · simp [if_pos hlen] at hok
  · simp only [if_neg hlen] at hok
    cases hc : rules.allowedResourceTypes.contains ((goSplit req.url "/")[0]!) with
    | false =>
      have hmem : ¬ (goSplit req.url "/")[0]! ∈ rules.allowedResourceTypes := by
        simpa using hc
      simp [hmem] at hok
    | true =>
      simp only [hc, Bool.not_true, Bool.false_eq_true, if_false] at hok
      cases hsrc : buildSourceURL base ((goSplit req.url "/")[0]!)
          ((goSplit req.url "/")[1]!) with
      | error e => simp [hsrc] at hok
      | ok srcURL =>
        simp only [hsrc, Except.ok.injEq, Prod.mk.injEq] at hok
        obtain ⟨h1, h2⟩ := hok
        subst h1
        exact ⟨srcURL, h2.symm⟩

/-- `updateResourceMeta` leaves a `meta` object whose `source` element
is the given source URL. -/
theorem updateResourceMeta_lookup (fs : JFields) (src : String) :
    ∃ ms, (updateResourceMeta fs src).lookup "meta" = some (.obj ms) ∧
      ms.lookup "source" = some (.str src) := by
  unfold updateResourceMeta
  cases hm : fs.lookup "meta" with
  | none =>
    exact ⟨.cons "source" (.str src) .nil, by simp [JFields.lookup_set_self],
      by simp [JFields.lookup]⟩
  | some v =>
    cases v with
    | obj ms0 =>
      refine ⟨((ms0.set "source" (.str src)).erase "versionId").erase "lastUpdated",
        by simp [JFields.lookup_set_self], ?_⟩
      rw [JFields.lookup_erase_ne _ _ _ (by decide), JFields.lookup_erase_ne _ _ _ (by decide),
        JFields.lookup_set_self]
    | str s =>
      exact ⟨.cons "source" (.str src) .nil, by simp [JFields.lookup_set_self],
        by simp [JFields.lookup]⟩
    | arr l =>
      exact ⟨.cons "source" (.str src) .nil, by simp [JFields.lookup_set_self],
        by simp [JFields.lookup]⟩

/-- The LRZa name strip does not touch the `id` element. -/
theorem stripOrganizationName_lookupStr_id (ty : String) (disc : Bool) (fs0 : JFields) :
    (stripOrganizationName ty disc fs0).lookupStr "id" = fs0.lookupStr "id" := by
  unfold stripOrganizationName
  split
  · unfold JFields.lookupStr
    rw [JFields.lookup_erase_ne _ _ _ (by decide)]
  · rfl

/-- C2: for every PUT/POST bundle entry accepted into the outgoing
transaction, for any source base URL, resource type and original
resource id, the emitted resource's `meta.source` equals
`SourceURL(sourceBase, resourceType, originalId)` and the emitted
resource body contains no `id` field. -/
theorem C2_meta_source_and_id_stripped (vUpd : Validator) (tx : List BundleEntry)
    (entry : BundleEntry) (rules : ValidationRules) (pm : ParentOrganizationMap)
    (hcs : List BundleEntry) (disc : Bool) (base ty : String) (tx' : List BundleEntry)
    (req : BundleEntryRequest) (fs0 : JFields) (origId : String)
    (hreq : entry.request = some req)
    (hm : req.method = .put ∨ req.method = .post)
    (hres : entry.resource = some (.obj fs0))
    (hid : fs0.lookupStr "id" = some origId)
    (hok : buildUpdateTransaction vUpd tx entry rules pm hcs disc base = .ok (ty, tx'))
    (hgrew : tx' ≠ tx) :
    ∃ srcURL newBody fs3,
      buildSourceURL base ty origId = .ok srcURL ∧
      tx' = tx ++ [{ resource := some newBody,
                     request := some { url := ty ++ "?_source=" ++ urlQueryEscape srcURL,
                                       method := .put } }] ∧
      newBody = .obj fs3 ∧ fs3.lookup "id" = none ∧
      metaSourceOf newBody = some srcURL := by
  have hnd : ¬ req.method = .delete := by
    rcases hm with h | h <;> rw [h] <;> intro hc <;> exact absurd hc (by simp)
  cases hfuq : entry.fullUrl with
  | none =>
    rw [buildUpdateTransaction] at hok
    simp [hfuq] at hok
  | some fu =>
    obtain ⟨hty, doSync, hds, hcase⟩ :=
      buildUpdateTransaction_nonDelete_ok vUpd tx entry rules pm hcs disc base ty tx'
        fu req fs0 hfuq hreq hnd hres hok
    rcases hcase with ⟨_, htx⟩ | ⟨_, origId2, srcURL, newBody, hid2, hsrc, hconv, htx⟩
    · exact absurd htx hgrew
    · have horig : origId2 = origId := by
        rw [stripOrganizationName_lookupStr_id, hid] at hid2
        exact (Option.some.injEq _ _ ▸ hid2).symm
      subst horig
      obtain ⟨rw0, fs3, _, hfields, hnb⟩ := convertReferencesValue_obj_ok base _ newBody hconv
      have hidgone :
          ((updateResourceMeta (stripOrganizationName ty disc fs0) srcURL).erase "id").lookup
            "id" = none := JFields.lookup_erase_self _ _
      have hid3 : fs3.lookup "id" = none :=
        convertReferencesFields_lookup_none _ _ _ _ _ hfields hidgone
      obtain ⟨ms, hmeta, hmsrc⟩ :=
        updateResourceMeta_lookup (stripOrganizationName ty disc fs0) srcURL
      have hmeta2 :
          ((updateResourceMeta (stripOrganizationName ty disc fs0) srcURL).erase "id").lookup
            "meta" = some (.obj ms) := by
        rw [JFields.lookup_erase_ne _ _ _ (by decide)]
        exact hmeta
      obtain ⟨mv, hmv, hl3⟩ :=
        convertReferencesFields_lookup_ne _ _ _ base "meta" (.obj ms) (by decide)
          hfields hmeta2
      obtain ⟨rwm, ms2, _, hmfields, hmv2⟩ := convertReferencesValue_obj_ok base ms mv hmv
      subst hmv2
      obtain ⟨sv, hsv, hsl⟩ :=
        convertReferencesFields_lookup_ne _ _ _ base "source" (.str srcURL) (by decide)
          hmfields hmsrc
      rw [convertReferencesValue_str] at hsv
      have hsv2 : sv = .str srcURL := by simpa using hsv.symm
      subst hsv2
      refine ⟨srcURL, newBody, fs3, hsrc, htx, hnb, hid3, ?_⟩
      rw [hnb]
      simp only [metaSourceOf, hl3, JFields.lookupStr, hsl]

/-- Base URL of the example source used in concrete instances. -/
def exBase : String := "http://src.example/fhir"

/-- A concrete Organization PUT entry with id, meta and a `Type/id`
reference. -/
def exPutBody0 : Json :=
  .obj (.cons "resourceType" (.str "Organization")
       (.cons "id" (.str "o1")
       (.cons "meta" (.obj (.cons "versionId" (.str "3")
                           (.cons "lastUpdated" (.str "7") .nil)))
       (.cons "partOf" (.obj (.cons "reference" (.str "Organization/o2") .nil)) .nil))))

/-- The bundle entry carrying `exPutBody0`. -/
def exPutEntry : BundleEntry :=
  { fullUrl := some (exBase ++ "/Organization/o1")
    resource := some exPutBody0
    request := some { method := .put, url := "Organization/o1" } }

/-- The transaction produced from `exPutEntry` by the builder. -/
def exPutTxResult : List BundleEntry :=
  match buildUpdateTransaction acceptAllValidator [] exPutEntry
      { allowedResourceTypes := ["Organization"] } [] [] false exBase with
  | .ok r => r.2
  | .error _ => []

/-- Witness for C2 at the concrete entry `exPutEntry`. -/
theorem C2_meta_source_and_id_stripped_witness :
    ∃ srcURL newBody fs3,
      buildSourceURL exBase "Organization" "o1" = .ok srcURL ∧
      exPutTxResult = [] ++ [{ resource := some newBody,
                               request := some { url := "Organization" ++ "?_source=" ++
                                                   urlQueryEscape srcURL,
                                                 method := .put } }] ∧
      newBody = .obj fs3 ∧ fs3.lookup "id" = none ∧
      metaSourceOf newBody = some srcURL :=
  C2_meta_source_and_id_stripped acceptAllValidator [] exPutEntry
    { allowedResourceTypes := ["Organization"] } [] [] false exBase "Organization"
    exPutTxResult { method := .put, url := "Organization/o1" }
    (.cons "resourceType" (.str "Organization")
       (.cons "id" (.str "o1")
       (.cons "meta" (.obj (.cons "versionId" (.str "3")
                           (.cons "lastUpdated" (.str "7") .nil)))
       (.cons "partOf" (.obj (.cons "reference" (.str "Organization/o2") .nil)) .nil))))
    "o1" rfl (Or.inl rfl) rfl rfl rfl (by decide)

/-- The forwarding condition the corrected C5 states for non-DELETE
entries: every validated entry of a non-discoverable source, and only
mCSD-directory Endpoints of discoverable sources. -/
def c5ForwardCondition (disc : Bool) (entry : BundleEntry) (ty : String) : Prop :=
  disc = false ∨ (ty = "Endpoint" ∧ mcsdDirectoryEndpointEntry entry = true)

/-- The discoverability filter outcome characterized against the
forwarding condition. -/
theorem computeDoSync_spec (ty : String) (disc : Bool) (fs0 : JFields) (b : Bool)
    (entry : BundleEntry) (hres : entry.resource = some (.obj fs0))
    (hds : computeDoSync ty disc (.obj fs0) = .ok b) :
    b = true ↔ c5ForwardCondition disc entry ty := by
  have hmc : mcsdDirectoryEndpointEntry entry =
      codablesIncludesCode ((lookupList fs0 "payloadType").map codeableConceptOfJson)
        payloadCoding := by
    simp [mcsdDirectoryEndpointEntry, hres, endpointOfJson]
  cases disc with
  | false =>
    simp only [computeDoSync, Bool.false_eq_true, if_false] at hds
    have hb : b = true := by simpa using hds.symm
    subst hb
    simp [c5ForwardCondition]
  | true =>
    by_cases hty : ty = "Endpoint"
    · simp only [computeDoSync, if_true, if_pos hty, endpointOfJson] at hds
      have hb : b = codablesIncludesCode ((lookupList fs0 "payloadType").map
          codeableConceptOfJson) payloadCoding := by
        simpa using hds.symm
      subst hb
      simp [c5ForwardCondition, hty, hmc]
    · simp only [computeDoSync, if_true, if_neg hty] at hds
      have hb : b = false := by simpa using hds.symm
      subst hb
      simp [c5ForwardCondition, hty]

/-- C5 amended: among successfully processed entries, a non-DELETE
entry extends the transaction exactly when the source is
non-discoverable or the entry is an mCSD-directory Endpoint; a DELETE
entry of an allowed resource type always extends the transaction,
whatever the discoverability of the source. -/
theorem C5_discoverability_filter (vUpd : Validator) (tx : List BundleEntry)
    (entry : BundleEntry) (rules : ValidationRules) (pm : ParentOrganizationMap)
    (hcs : List BundleEntry) (disc : Bool) (base ty : String) (tx' : List BundleEntry)
    (fu : String) (req : BundleEntryRequest)
    (hfu : entry.fullUrl = some fu)
    (hreq : entry.request = some req)
    (hok : buildUpdateTransaction vUpd tx entry rules pm hcs disc base = .ok (ty, tx')) :
    (¬ req.method = .delete →
      (tx'.length = tx.length + 1 ↔ c5ForwardCondition disc entry ty)) ∧
    (req.method = .delete → tx'.length = tx.length + 1) := by
  constructor
  · intro hnd
    cases hresq : entry.resource with
    | none =>
      rw [buildUpdateTransaction] at hok
      simp [hfu, hreq, hresq, if_neg (show ¬ req.method = HTTPVerb.delete from hnd)] at hok
    | some body =>
      cases body with
      | str sb =>
        rw [buildUpdateTransaction] at hok
        simp [hfu, hreq, hresq, if_neg (show ¬ req.method = HTTPVerb.delete from hnd)] at hok
      | arr ab =>
        rw [buildUpdateTransaction] at hok
        simp [hfu, hreq, hresq, if_neg (show ¬ req.method = HTTPVerb.delete from hnd)] at hok
      | obj fs0 =>
        obtain ⟨hty, doSync, hds, hcase⟩ :=
          buildUpdateTransaction_nonDelete_ok vUpd tx entry rules pm hcs disc base ty tx'
            fu req fs0 hfu hreq hnd hresq hok
        have hspec := computeDoSync_spec ty disc fs0 doSync entry hresq hds
        rcases hcase with ⟨hdsF, htx⟩ | ⟨hdsT, _, _, _, _, _, _, htx⟩
        · subst hdsF
          subst htx
          constructor
          · intro hlen
            exact absurd hlen (by omega)
          · intro hc
            exact absurd (hspec.mpr hc) (by simp)
        · subst htx
          exact ⟨fun _ => hspec.mp hdsT, fun _ => by simp⟩
  · intro hd
    obtain ⟨srcURL, htx⟩ :=
      buildUpdateTransaction_delete_ok vUpd tx entry rules pm hcs disc base ty tx'
        fu req hfu hreq hd hok
    subst htx
    simp

/-- A DELETE entry on an Organization, as pulled from a discoverable
root directory. -/
def cexDeleteEntry : BundleEntry :=
  { fullUrl := some "http://root.example/fhir/Organization/123"
    request := some { method := .delete, url := "Organization/123" } }

/-- Counterexample to C5 as stated: from a discoverable source, a
DELETE on an Organization — not an Endpoint carrying the
mCSD-directory coding — is nevertheless forwarded into the
transaction as a conditional DELETE. -/
theorem C5_counterexample :
    buildUpdateTransaction acceptAllValidator [] cexDeleteEntry
      { allowedResourceTypes := rootDirectoryResourceTypes } [] [] true
      "http://root.example/fhir" =
      .ok ("Organization",
        [{ request := some { url := "Organization?_source=" ++
                               urlQueryEscape "http://root.example/fhir/Organization/123",
                             method := .delete } }]) ∧
    mcsdDirectoryEndpointEntry cexDeleteEntry = false := by
  exact ⟨rfl, by decide⟩

/-- Witness for C5 at the concrete entry `exPutEntry` pulled from a
discoverable source: the Organization body is not forwarded. -/
theorem C5_discoverability_filter_witness :
    (¬ HTTPVerb.put = HTTPVerb.delete →
      (([] : List BundleEntry).length = ([] : List BundleEntry).length + 1 ↔
        c5ForwardCondition true exPutEntry "Organization")) ∧
    (HTTPVerb.put = HTTPVerb.delete →
      ([] : List BundleEntry).length = ([] : List BundleEntry).length + 1) :=
  C5_discoverability_filter acceptAllValidator [] exPutEntry
    { allowedResourceTypes := ["Organization"] } [] [] true exBase "Organization" []
    (exBase ++ "/Organization/o1") { method := .put, url := "Organization/o1" }
    rfl rfl rfl

/-- Success half of the pagination contract: while the accumulated
total stays strictly below the safety limit, the union of the pages is
returned. -/
theorem queryFHIRPages_ok : ∀ (pages : List (List BundleEntry)) (acc : List BundleEntry),
    acc.length + pages.flatten.length < maxUpdateEntries →
    queryFHIRPages acc pages = .ok (acc ++ pages.flatten)
  | [], acc, _ => by simp [queryFHIRPages]
  | page :: rest, acc, hlt => by
    have hlen : ¬ maxUpdateEntries ≤ (acc ++ page).length := by
      simp only [List.flatten_cons, List.length_append] at hlt ⊢
      omega
    have hrec := queryFHIRPages_ok rest (acc ++ page) (by
      simp only [List.flatten_cons, List.length_append] at hlt ⊢
      omega)
    simp only [queryFHIRPages, if_neg hlen, hrec, List.flatten_cons, List.append_assoc]

/-- Failure half of the pagination contract: once the total reaches
the safety limit, the operation fails. -/
theorem queryFHIRPages_err : ∀ (pages : List (List BundleEntry)) (acc : List BundleEntry),
    acc.length < maxUpdateEntries → maxUpdateEntries ≤ acc.length + pages.flatten.length →
    ∃ e, queryFHIRPages acc pages = .error e
  | [], acc, hlt, hge => by
    simp only [List.flatten_nil, List.length_nil, Nat.add_zero] at hge
    omega
  | page :: rest, acc, hlt, hge => by
    by_cases hfull : maxUpdateEntries ≤ (acc ++ page).length
    · exact ⟨_, by rw [queryFHIRPages, if_pos hfull]⟩
    · obtain ⟨e, he⟩ := queryFHIRPages_err rest (acc ++ page) (by omega) (by
        simp only [List.flatten_cons, List.length_append] at hge ⊢
        omega)
      exact ⟨e, by simp only [queryFHIRPages, if_neg hfull, he]⟩

/-- C9 amended: a paginated search returns the union of all pages when
the total stays strictly below the 1000-entry safety limit, and fails
once the total reaches 1000 entries or more (in particular at a total
of exactly 1000). -/
theorem C9_pagination_limit (pages : List (List BundleEntry)) :
    (pages.flatten.length < maxUpdateEntries → queryFHIR pages = .ok pages.flatten) ∧
    (maxUpdateEntries ≤ pages.flatten.length → ∃ e, queryFHIR pages = .error e) := by
  constructor
  · intro h
    have := queryFHIRPages_ok pages [] (by simpa using h)
    simpa [queryFHIR] using this
  · intro h
    have := queryFHIRPages_err pages [] (by simp [maxUpdateEntries]) (by simpa using h)
    simpa [queryFHIR] using this

set_option maxRecDepth 8000 in
/-- Counterexample to C9 as stated: a page sequence totalling exactly
1000 entries — within the 1000-entry safety limit, and not exceeding
it — makes the operation fail instead of returning the union. -/
theorem C9_counterexample :
    (List.replicate 1000 ({} : BundleEntry)).length = 1000 ∧
    queryFHIR [List.replicate 1000 ({} : BundleEntry)] =
      .error "too many entries (1000), aborting update to prevent excessive memory usage" := by
  exact ⟨by simp, rfl⟩

/-- Witness for C9 on a single one-entry page. -/
theorem C9_pagination_limit_witness :
    queryFHIR [[({} : BundleEntry)]] = .ok [[({} : BundleEntry)]].flatten :=
  (C9_pagination_limit [[({} : BundleEntry)]]).1 (by decide)

/-- Remove at most one trailing slash (the matching notion of the C8
claim). -/
def stripOneTrailingSlash (s : String) : String :=
  match s.data.reverse with
  | [] => s
  | c :: rest => if c = '/' then String.mk rest.reverse else s

/-- Removing one trailing slash does not change the all-slashes-trimmed
form. -/
theorem trimTrailingSlashes_stripOne (s : String) :
    trimTrailingSlashes (stripOneTrailingSlash s) = trimTrailingSlashes s := by
  cases h : s.data.reverse with
  | nil => simp [stripOneTrailingSlash, h]
  | cons c rest =>
    by_cases hc : c = '/'
    · subst hc
      simp only [stripOneTrailingSlash, h, if_pos rfl, trimTrailingSlashes, h]
      simp [List.dropWhile]
    · simp [stripOneTrailingSlash, h, hc]

/-- C8 amended: a registration attempt whose base URL equals a
configured exclusion entry after ignoring one trailing slash never
adds a directory; when the URL passes the absolute-http(s) validity
check the attempt is skipped silently with no error, while an invalid
URL yields an error (and is likewise not added). -/
theorem C8_exclusion (cfg : ModelConfig) (dirs : List AdminDirectory)
    (url : String) (rts : List String) (disc : Bool) (srcU ura E : String)
    (hE : E ∈ cfg.excludeAdminDirectories)
    (heq : stripOneTrailingSlash url = stripOneTrailingSlash E) :
    (∀ dirs', registerAdministrationDirectory cfg dirs url rts disc srcU ura = .ok dirs' →
      dirs' = dirs) ∧
    (isAbsoluteHttpURL url = true →
      registerAdministrationDirectory cfg dirs url rts disc srcU ura = .ok dirs) := by
  have htrim : trimTrailingSlashes url = trimTrailingSlashes E := by
    rw [← trimTrailingSlashes_stripOne url, ← trimTrailingSlashes_stripOne E, heq]
  have hany : (cfg.excludeAdminDirectories.any fun ex =>
      trimTrailingSlashes ex = trimTrailingSlashes url) = true := by
    rw [List.any_eq_true]
    exact ⟨E, hE, by simp [htrim]⟩
  cases hval : isAbsoluteHttpURL url with
  | false =>
    constructor
    · intro dirs' hok
      rw [registerAdministrationDirectory] at hok
      simp [hval] at hok
    · intro hc
      exact absurd hc (by simp [hval])
  | true =>
    have hok : registerAdministrationDirectory cfg dirs url rts disc srcU ura = .ok dirs := by
      rw [registerAdministrationDirectory]
      simp only [hval, Bool.not_true, Bool.false_eq_true, if_false, hany, if_true]
    constructor
    · intro dirs' hok2
      rw [hok] at hok2
      simpa using hok2.symm
    · intro _
      exact hok

/-- The configuration of the C8 counterexample: the exclusion list
contains a string that is not a valid absolute http(s) URL. -/
def cexExcludeConfig : ModelConfig := { excludeAdminDirectories := ["not-a-valid-url"] }

/-- Counterexample to C8 as stated: an attempt to register a base URL
equal to a configured exclusion entry returns an error — not a silent
skip — when the URL fails the validity check, which runs first. -/
theorem C8_counterexample :
    "not-a-valid-url" ∈ cexExcludeConfig.excludeAdminDirectories ∧
    registerAdministrationDirectory cexExcludeConfig [] "not-a-valid-url" [] false "" "" =
      .error "invalid FHIR base URL (url=not-a-valid-url)" := by
  exact ⟨by decide, rfl⟩

/-- The configuration of the C8 witness. -/
def exExcludeConfig : ModelConfig := { excludeAdminDirectories := ["http://ex.example/fhir"] }

/-- Witness for C8: registering the excluded URL with an extra
trailing slash is silently skipped. -/
theorem C8_exclusion_witness :
    registerAdministrationDirectory exExcludeConfig [] "http://ex.example/fhir/"
      rootDirectoryResourceTypes true "" "" = .ok [] :=
  (C8_exclusion exExcludeConfig [] "http://ex.example/fhir/" rootDirectoryResourceTypes true
    "" "" "http://ex.example/fhir" (by decide) (by decide)).2 (by decide)

/-- Directories surviving an unregistration never carry the removed
`sourceURL`. -/
theorem unregisterAdministrationDirectory_not_mem (dirs : List AdminDirectory)
    (fu : String) (d : AdminDirectory)
    (hd : d ∈ unregisterAdministrationDirectory dirs fu) : ¬ d.sourceURL = fu := by
  unfold unregisterAdministrationDirectory at hd
  have := List.of_mem_filter hd
  simpa using this

/-- The Endpoint-DELETE pre-scan only removes registrations. -/
theorem processEndpointDeletes_subset : ∀ (entries : List BundleEntry)
    (dirs : List AdminDirectory) (d : AdminDirectory),
    d ∈ processEndpointDeletes dirs entries → d ∈ dirs
  | [], dirs, d, hd => hd
  | entry :: rest, dirs, d, hd => by
    rw [processEndpointDeletes] at hd
    have hsub := processEndpointDeletes_subset rest _ d hd
    unfold processEndpointDeletesStep at hsub
    rcases hq : entry.request with _ | req <;> rcases hf : entry.fullUrl with _ | fu <;>
      simp only [hq, hf] at hsub
    · exact hsub
    · exact hsub
    · exact hsub
    · split at hsub
      · split at hsub
        · exact List.mem_of_mem_filter hsub
        · exact hsub
      · exact hsub

/-- A bundle entry that is an Endpoint DELETE carrying the given
fullUrl (the shape `processEndpointDeletes` reacts to). -/
def endpointDeleteMatches (entry : BundleEntry) (fu : String) : Prop :=
  ∃ req, entry.request = some req ∧ req.method = .delete ∧ entry.fullUrl = some fu ∧
    (goSplit req.url "/").length ≥ 2 ∧ (goSplit req.url "/").headD "" = "Endpoint"

/-- After the pre-scan processes an Endpoint DELETE with fullUrl `fu`,
no registration with that `sourceURL` survives. -/
theorem processEndpointDeletes_removes : ∀ (entries : List BundleEntry)
    (dirs : List AdminDirectory) (entry : BundleEntry) (fu : String),
    entry ∈ entries → endpointDeleteMatches entry fu →
    ∀ d ∈ processEndpointDeletes dirs entries, ¬ d.sourceURL = fu
  | [], dirs, entry, fu, hmem, _, d, _ => by cases hmem
  | e0 :: rest, dirs, entry, fu, hmem, hmatch, d, hd => by
    rcases List.mem_cons.mp hmem with he | he
    · subst he
      obtain ⟨req, hreq, hdel, hfu, hlen, hhead⟩ := hmatch
      have hhead2 : (goSplit req.url "/").head?.getD "" = "Endpoint" := by
        simpa using hhead
      have hstep : processEndpointDeletesStep dirs entry =
          unregisterAdministrationDirectory dirs fu := by
        unfold processEndpointDeletesStep
        rw [hreq, hfu]
        simp [hdel, hlen, hhead2]
      rw [processEndpointDeletes, hstep] at hd
      have hd2 := processEndpointDeletes_subset rest _ d hd
      exact unregisterAdministrationDirectory_not_mem dirs fu d hd2
    · rw [processEndpointDeletes] at hd
      exact processEndpointDeletes_removes rest _ entry fu he hmatch d hd

/-- A successful registration either changes nothing or appends
exactly the record built from its arguments. -/
theorem registerAdministrationDirectory_ok_cases (cfg : ModelConfig)
    (dirs : List AdminDirectory) (url : String) (rts : List String) (disc : Bool)
    (srcU ura : String) (dirs' : List AdminDirectory)
    (hok : registerAdministrationDirectory cfg dirs url rts disc srcU ura = .ok dirs') :
    dirs' = dirs ∨ dirs' = dirs ++
      [{ fhirBaseURL := url, resourceTypes := rts, discover := disc,
         sourceURL := srcU, authoritativeUra := ura }] := by
  rw [registerAdministrationDirectory] at hok
  cases hval : isAbsoluteHttpURL url with
  | false => simp [hval] at hok
  | true =>
    simp only [hval, Bool.not_true, Bool.false_eq_true, if_false] at hok
    split at hok
    · exact Or.inl (by simpa using hok.symm)
    · split at hok
      · exact Or.inl (by simpa using hok.symm)
      · exact Or.inr (by simpa using hok.symm)

/-- Every directory registered by the root-registration loop of `New`
satisfies any property preserved by its inputs and enjoyed by the
appended root records. -/
theorem registerRoots_sourceURL : ∀ (urls : List String) (cfg : ModelConfig)
    (dirs : List AdminDirectory),
    (∀ d ∈ dirs, d.sourceURL = "" ∧ d.discover = true) →
    ∀ dirs', registerRoots cfg dirs urls = .ok dirs' →
    ∀ d ∈ dirs', d.sourceURL = "" ∧ d.discover = true
  | [], cfg, dirs, hinv, dirs', hok, d => by
    rw [registerRoots] at hok
    intro hd
    exact hinv d (by simpa using (show dirs = dirs' by simpa using hok) ▸ hd)
  | u :: rest, cfg, dirs, hinv, dirs', hok, d => by
    rw [registerRoots] at hok
    cases hreg : registerAdministrationDirectory cfg dirs u rootDirectoryResourceTypes
        true "" "" with
    | error e => rw [hreg] at hok; exact absurd hok (by simp)
    | ok dirs1 =>
      rw [hreg] at hok
      intro hd
      have hinv1 : ∀ d ∈ dirs1, d.sourceURL = "" ∧ d.discover = true := by
        rcases registerAdministrationDirectory_ok_cases cfg dirs u rootDirectoryResourceTypes
            true "" "" dirs1 hreg with hsame | happ
        · subst hsame; exact hinv
        · subst happ
          intro d2 hd2
          rcases List.mem_append.mp hd2 with h2 | h2
          · exact hinv d2 h2
          · rcases List.mem_singleton.mp h2 with rfl
            exact ⟨rfl, rfl⟩
      exact registerRoots_sourceURL rest cfg dirs1 hinv1 dirs' hok d hd

/-- C10: an Endpoint DELETE entry whose fullUrl is present but equal
to the empty string makes the pre-scan unregister every registry entry
whose `sourceEntryURL` is the empty string; and every root directory
registered by `New` from the configuration carries an empty
`sourceEntryURL`, so all configured roots are removed. -/
theorem C10_empty_fullurl_unregisters_roots :
    (∀ (dirs : List AdminDirectory) (entries : List BundleEntry) (entry : BundleEntry),
      entry ∈ entries → endpointDeleteMatches entry "" →
      ∀ d ∈ processEndpointDeletes dirs entries, ¬ d.sourceURL = "") ∧
    (∀ (cfg : ModelConfig) (st : CompState), newComponentState cfg = .ok st →
      ∀ d ∈ st.administrationDirectories, d.sourceURL = "" ∧ d.discover = true) := by
  constructor
  · intro dirs entries entry hmem hmatch d hd
    exact processEndpointDeletes_removes entries dirs entry "" hmem hmatch d hd
  · intro cfg st hok d hd
    rw [newComponentState] at hok
    cases hreg : registerRoots cfg [] cfg.administrationDirectories with
    | error e => rw [hreg] at hok; exact absurd hok (by simp)
    | ok dirs0 =>
      rw [hreg] at hok
      have hst : st.administrationDirectories = dirs0 := by
        have : ({ administrationDirectories := dirs0, lastUpdateTimes := [] } : CompState) =
            st := by simpa using hok
        rw [← this]
      exact registerRoots_sourceURL cfg.administrationDirectories cfg [] (by simp) dirs0
        hreg d (hst ▸ hd)

/-- The Endpoint DELETE entry with an empty fullUrl used in the C10
witness. -/
def cexEmptyFullUrlDelete : BundleEntry :=
  { fullUrl := some "", request := some { method := .delete, url := "Endpoint/zz" } }

/-- A configured root directory record as `New` registers it. -/
def exRootDir : AdminDirectory :=
  { fhirBaseURL := "http://root.example/fhir", resourceTypes := rootDirectoryResourceTypes,
    discover := true, sourceURL := "", authoritativeUra := "" }

/-- Witness for C10 at a concrete registry and feed. -/
theorem C10_empty_fullurl_unregisters_roots_witness :
    (∀ d ∈ processEndpointDeletes [exRootDir] [cexEmptyFullUrlDelete], ¬ d.sourceURL = "") ∧
    (∀ d ∈ ([exRootDir] : List AdminDirectory), d.sourceURL = "" ∧ d.discover = true) := by
  constructor
  · exact C10_empty_fullurl_unregisters_roots.1 [exRootDir] [cexEmptyFullUrlDelete]
      cexEmptyFullUrlDelete (by decide)
      ⟨{ method := .delete, url := "Endpoint/zz" }, rfl, rfl, rfl, by decide, by decide⟩
  · exact C10_empty_fullurl_unregisters_roots.2
      { administrationDirectories := ["http://root.example/fhir"] }
      { administrationDirectories := [exRootDir], lastUpdateTimes := [] } rfl
/-- One comparison step of the per-ID fold that characterizes the
deduplicator: a later entry replaces the current survivor only when
`isMoreRecent` holds. -/
def dedupStep (acc : Option BundleEntry) (e : BundleEntry) : Option BundleEntry :=
  match acc with
  | none => some e
  | some w => if isMoreRecent e w then some e else some w

/-- The survivor of a bucket of same-ID entries, as a left fold. -/
def dedupFoldWinner (l : List BundleEntry) : Option BundleEntry := l.foldl dedupStep none

/-- Lookup after appending a single binding. -/
theorem alookup_append_single {β : Type} : ∀ (m : List (String × β)) (k k2 : String) (v : β),
    alookup k2 (m ++ [(k, v)]) =
      match alookup k2 m with
      | some w => some w
      | none => if k = k2 then some v else none
  | [], k, k2, v => by simp [alookup]
  | (k0, v0) :: m', k, k2, v => by
    by_cases h : k0 = k2
    · simp [alookup, h]
    · simp only [List.cons_append, alookup, if_neg h]
      exact alookup_append_single m' k k2 v

/-- `replacePair` at a matching key. -/
theorem replacePair_eq {β : Type} (rid : String) (e : β) (k0 : String) (v0 : β)
    (h : k0 = rid) : replacePair rid e (k0, v0) = (rid, e) := by
  simp [replacePair, h]

/-- `replacePair` at a non-matching key. -/
theorem replacePair_ne {β : Type} (rid : String) (e : β) (k0 : String) (v0 : β)
    (h : ¬ k0 = rid) : replacePair rid e (k0, v0) = (k0, v0) := by
  simp [replacePair, h]

/-- Lookup after an in-place value replacement at one key. -/
theorem alookup_map_replace {β : Type} : ∀ (m : List (String × β)) (rid k2 : String) (e : β),
    alookup k2 (m.map (replacePair rid e)) =
      if k2 = rid then (if (alookup rid m).isSome then some e else none)
      else alookup k2 m
  | [], rid, k2, e => by by_cases h : k2 = rid <;> simp [alookup, h]
  | (k0, v0) :: m', rid, k2, e => by
    by_cases hk0 : k0 = rid
    · subst hk0
      rw [List.map_cons, replacePair_eq _ _ _ _ rfl]
      by_cases h2 : k0 = k2
      · subst h2
        simp [alookup, alookup_map_replace m' k0 k0 e]
      · have h2b : ¬ k2 = k0 := fun hc => h2 hc.symm
        simp only [alookup, if_neg h2, if_pos rfl]
        rw [alookup_map_replace m' k0 k2 e]
        simp [h2b]
    · rw [List.map_cons, replacePair_ne _ _ _ _ hk0]
      by_cases h2 : k0 = k2
      · subst h2
        simp [alookup, hk0]
      · simp only [alookup, if_neg h2, if_neg hk0]
        exact alookup_map_replace m' rid k2 e

/-- The first projection is unchanged by `replacePair`. -/
theorem replacePair_fst {β : Type} (rid : String) (e : β) (p : String × β) :
    (replacePair rid e p).1 = p.1 := by
  unfold replacePair
  split
  · rename_i h
    exact h.symm
  · rfl

/-- A key that fails lookup is not among the keys. -/
theorem alookup_none_not_key {β : Type} : ∀ (m : List (String × β)) (k : String),
    alookup k m = none → ¬ k ∈ m.map Prod.fst
  | [], k, _ => by simp
  | (k0, v0) :: m', k, h => by
    by_cases hk : k0 = k
    · simp [alookup, hk] at h
    · simp only [alookup, if_neg hk] at h
      simp only [List.map_cons, List.mem_cons]
      rintro (hc | hc)
      · exact hk hc.symm
      · exact alookup_none_not_key m' k h hc

/-- Entries are stored under their own extracted ID, and keys stay
distinct, throughout the deduplication map build. -/
theorem dedupBuildMap_inv : ∀ (es : List BundleEntry) (m : List (String × BundleEntry)),
    (∀ p ∈ m, dedupEntryID p.2 = p.1) → (m.map Prod.fst).Nodup →
    (∀ p ∈ dedupBuildMap m es, dedupEntryID p.2 = p.1) ∧
      ((dedupBuildMap m es).map Prod.fst).Nodup
  | [], m, hinv, hnd => by
    rw [dedupBuildMap]
    exact ⟨hinv, hnd⟩
  | e :: rest, m, hinv, hnd => by
    rw [dedupBuildMap]
    by_cases hid : dedupEntryID e = ""
    · rw [if_pos hid]
      exact dedupBuildMap_inv rest m hinv hnd
    · rw [if_neg hid]
      cases hL : alookup (dedupEntryID e) m with
      | none =>
        refine dedupBuildMap_inv rest _ ?_ ?_
        · intro p hp
          rcases List.mem_append.mp hp with h | h
          · exact hinv p h
          · rcases List.mem_singleton.mp h with rfl
            rfl
        · rw [List.map_append]
          simp only [List.map_cons, List.map_nil]
          rw [List.nodup_append]
          refine ⟨hnd, List.nodup_singleton _, ?_⟩
          intro x hx hx2
          rw [List.mem_singleton] at hx2
          subst hx2
          exact alookup_none_not_key m _ hL hx
      | some ex =>
        dsimp only
        by_cases hmr : isMoreRecent e ex
        · rw [if_pos hmr]
          refine dedupBuildMap_inv rest _ ?_ ?_
          · intro p hp
            rcases List.mem_map.mp hp with ⟨q, hq, hrep⟩
            subst hrep
            unfold replacePair
            split
            · rfl
            · exact hinv q hq
          · have hkeys : (m.map (replacePair (dedupEntryID e) e)).map Prod.fst =
                m.map Prod.fst := by
              rw [List.map_map]
              exact List.map_congr_left fun p _ => replacePair_fst _ _ p
            rw [hkeys]
            exact hnd
        · rw [if_neg hmr]
          exact dedupBuildMap_inv rest m hinv hnd

/-- The deduplication map's entry for one resource ID is the left fold
of that ID's bucket. -/
theorem dedupBuildMap_alookup : ∀ (es : List BundleEntry) (m : List (String × BundleEntry))
    (rid : String), ¬ rid = "" →
    alookup rid (dedupBuildMap m es) =
      (es.filter fun e => dedupEntryID e = rid).foldl dedupStep (alookup rid m)
  | [], m, rid, _ => by simp [dedupBuildMap]
  | e :: rest, m, rid, hr => by
    rw [dedupBuildMap]
    by_cases hid : dedupEntryID e = ""
    · rw [if_pos hid]
      have hne : ¬ dedupEntryID e = rid := by
        rw [hid]
        exact fun hc => hr hc.symm
      rw [List.filter_cons_of_neg (by simpa using hne)]
      exact dedupBuildMap_alookup rest m rid hr
    · rw [if_neg hid]
      by_cases heq : dedupEntryID e = rid
      · subst heq
        rw [List.filter_cons_of_pos (by simp)]
        cases hL : alookup (dedupEntryID e) m with
        | none =>
          dsimp only
          rw [dedupBuildMap_alookup rest _ _ hr]
          rw [List.foldl_cons]
          congr 1
          rw [alookup_append_single, hL]
          simp [dedupStep]
        | some ex =>
          dsimp only
          by_cases hmr : isMoreRecent e ex
          · rw [if_pos hmr]
            rw [dedupBuildMap_alookup rest _ _ hr]
            rw [List.foldl_cons]
            congr 1
            rw [alookup_map_replace, if_pos rfl, hL]
            simp [dedupStep, hmr]
          · rw [if_neg hmr]
            rw [dedupBuildMap_alookup rest _ _ hr]
            rw [List.foldl_cons]
            congr 1
            rw [hL]
            simp [dedupStep, hmr]
      · rw [List.filter_cons_of_neg (by simpa using heq)]
        cases hL : alookup (dedupEntryID e) m with
        | none =>
          dsimp only
          rw [dedupBuildMap_alookup rest _ _ hr]
          congr 1
          rw [alookup_append_single]
          cases hL2 : alookup rid m with
          | none =>
            dsimp only
            rw [if_neg (fun hc : dedupEntryID e = rid => heq hc)]
          | some w => rfl
        | some ex =>
          dsimp only
          by_cases hmr : isMoreRecent e ex
          · rw [if_pos hmr]
            rw [dedupBuildMap_alookup rest _ _ hr]
            congr 1
            rw [alookup_map_replace]
            rw [if_neg (fun hc : rid = dedupEntryID e => heq hc.symm)]
          · rw [if_neg hmr]
            exact dedupBuildMap_alookup rest m rid hr

/-- Filtering the map's values for one ID yields exactly the stored
entry for that ID. -/
theorem dedup_mapValues_filter : ∀ (m : List (String × BundleEntry)) (rid : String),
    (∀ p ∈ m, dedupEntryID p.2 = p.1) → (m.map Prod.fst).Nodup →
    (m.map Prod.snd).filter (fun e => dedupEntryID e = rid) = (alookup rid m).toList
  | [], rid, _, _ => by simp [alookup]
  | (k, v) :: m', rid, hinv, hnd => by
    have hkv : dedupEntryID v = k := hinv (k, v) (by simp)
    by_cases hk : k = rid
    · subst hk
      rw [List.map_cons, List.filter_cons_of_pos (by simp [hkv])]
      simp only [alookup, if_pos rfl, Option.toList_some]
      have htail : (m'.map Prod.snd).filter (fun e => dedupEntryID e = k) = [] := by
        rw [List.filter_eq_nil_iff]
        intro a ha
        rcases List.mem_map.mp ha with ⟨q, hq, hqa⟩
        subst hqa
        rw [hinv q (by simp [hq])]
        intro hc
        have : k ∈ m'.map Prod.fst := by
          rw [← (by simpa using hc : q.1 = k)]
          exact List.mem_map_of_mem Prod.fst hq
        rw [List.map_cons, List.nodup_cons] at hnd
        exact hnd.1 this
      rw [htail]
      simp
    · rw [List.map_cons, List.filter_cons_of_neg (by simp [hkv, hk])]
      rw [dedup_mapValues_filter m' rid (fun p hp => hinv p (by simp [hp]))
        (by rw [List.map_cons, List.nodup_cons] at hnd; exact hnd.2)]
      simp only [alookup, if_neg hk]

/-- An entry without a timestamp is never replaced. -/
theorem isMoreRecent_none_right (x w : BundleEntry) (h : getLastUpdated w = none) :
    isMoreRecent x w = false := by
  unfold isMoreRecent
  rw [h]
  cases getLastUpdated x <;> rfl

/-- A survivor without a timestamp survives the rest of the fold. -/
theorem foldl_dedupStep_stuck (w : BundleEntry) (h : getLastUpdated w = none) :
    ∀ l : List BundleEntry, l.foldl dedupStep (some w) = some w
  | [] => rfl
  | e :: rest => by
    rw [List.foldl_cons]
    have : dedupStep (some w) e = some w := by
      simp [dedupStep, isMoreRecent_none_right e w h]
    rw [this]
    exact foldl_dedupStep_stuck w h rest

/-- C1 amended: at most one entry per resource ID survives
deduplication, and the survivor is the left fold of that ID's bucket
in which a later entry replaces the current survivor only when both
carry `meta.lastUpdated` and the later one is strictly greater; in
particular, when the first entry of the bucket has no timestamp (a
DELETE, say) that first entry survives regardless of later entries. -/
theorem C1_dedup_first_wins (entries : List BundleEntry) (rid : String) (hrid : ¬ rid = "") :
    (deduplicateHistoryEntries entries).filter (fun e => dedupEntryID e = rid) =
      (dedupFoldWinner (entries.filter fun e => dedupEntryID e = rid)).toList ∧
    (∀ e rest, entries.filter (fun e2 => dedupEntryID e2 = rid) = e :: rest →
      getLastUpdated e = none →
      (deduplicateHistoryEntries entries).filter (fun e2 => dedupEntryID e2 = rid) = [e]) := by
  have hmain : (deduplicateHistoryEntries entries).filter (fun e => dedupEntryID e = rid) =
      (dedupFoldWinner (entries.filter fun e => dedupEntryID e = rid)).toList := by
    unfold deduplicateHistoryEntries
    rw [List.filter_append]
    have htail : (entries.filter fun e => dedupEntryID e = "").filter
        (fun e => dedupEntryID e = rid) = [] := by
      rw [List.filter_eq_nil_iff]
      intro a ha
      have := List.of_mem_filter ha
      simp only [decide_eq_true_eq] at this
      rw [this]
      simp only [decide_eq_true_eq]
      exact fun hc => hrid hc.symm
    rw [htail, List.append_nil]
    obtain ⟨hinv, hnd⟩ := dedupBuildMap_inv entries [] (by simp) (by simp)
    rw [dedup_mapValues_filter _ rid hinv hnd]
    rw [dedupBuildMap_alookup entries [] rid hrid]
    rfl
  refine ⟨hmain, ?_⟩
  intro e rest hb hnone
  rw [hmain, hb]
  unfold dedupFoldWinner
  rw [List.foldl_cons]
  have h1 : dedupStep none e = some e := rfl
  rw [h1, foldl_dedupStep_stuck e hnone rest]
  rfl

/-- A DELETE entry for Organization `x`, first in the feed. -/
def cexDeleteFirst : BundleEntry :=
  { fullUrl := some "http://src.example/fhir/Organization/x/_history/2"
    request := some { method := .delete, url := "Organization/x" } }

/-- A timestamped PUT for Organization `x`, later in the feed. -/
def cexPutLater : BundleEntry :=
  { fullUrl := some "http://src.example/fhir/Organization/x/_history/1"
    resource := some (.obj (.cons "resourceType" (.str "Organization")
      (.cons "id" (.str "x")
      (.cons "meta" (.obj (.cons "lastUpdated" (.str "5") .nil)) .nil))))
    request := some { method := .put, url := "Organization/x/_history/1" } }

/-- Counterexample to C1 as stated: the feed holds a DELETE for id `x`
followed by a timestamped non-DELETE update for the same id, so the
claim elects the update; the code keeps the DELETE, because the first
entry for an ID is only ever replaced by a strictly-newer timestamped
entry and a DELETE blocks every successor. -/
theorem C1_counterexample :
    deduplicateHistoryEntries [cexDeleteFirst, cexPutLater] = [cexDeleteFirst] ∧
    dedupEntryID cexDeleteFirst = "x" ∧ dedupEntryID cexPutLater = "x" ∧
    (cexDeleteFirst.request.map BundleEntryRequest.method) = some .delete ∧
    cexDeleteFirst.resource = none ∧
    getLastUpdated cexPutLater = some 5 := by
  refine ⟨by decide, by decide, by decide, rfl, rfl, by decide⟩

/-- Witness for C1 at the bucket of id `x` in the counterexample
feed. -/
theorem C1_dedup_first_wins_witness :
    ((deduplicateHistoryEntries [cexDeleteFirst, cexPutLater]).filter
      (fun e => dedupEntryID e = "x") =
      (dedupFoldWinner ([cexDeleteFirst, cexPutLater].filter
        fun e => dedupEntryID e = "x")).toList) ∧
    (∀ e rest, [cexDeleteFirst, cexPutLater].filter (fun e2 => dedupEntryID e2 = "x") =
        e :: rest →
      getLastUpdated e = none →
      (deduplicateHistoryEntries [cexDeleteFirst, cexPutLater]).filter
        (fun e2 => dedupEntryID e2 = "x") = [e]) :=
  C1_dedup_first_wins [cexDeleteFirst, cexPutLater] "x" (by decide)

/-- Lookup after a Go map assignment, at the assigned key. -/
theorem alookup_assocUpd_self {β : Type} (m : List (String × β)) (k : String) (v : β) :
    alookup k (assocUpd m k v) = some v := by
  unfold assocUpd
  cases hL : alookup k m with
  | none =>
    simp only [hL, Option.isSome_none, Bool.false_eq_true, if_false]
    rw [alookup_append_single, hL]
    simp
  | some w =>
    simp only [hL, Option.isSome_some, if_true]
    rw [alookup_map_replace, if_pos rfl, hL]
    simp

/-- Lookup after a Go map assignment, at any other key. -/
theorem alookup_assocUpd_ne {β : Type} (m : List (String × β)) (k key : String) (v : β)
    (h : ¬ k = key) : alookup k (assocUpd m key v) = alookup k m := by
  unfold assocUpd
  cases hL : alookup key m with
  | none =>
    simp only [hL, Option.isSome_none, Bool.false_eq_true, if_false]
    rw [alookup_append_single]
    cases hL2 : alookup k m with
    | none => simp [show ¬ key = k from fun hc => h hc.symm]
    | some w => rfl
  | some w =>
    simp only [hL, Option.isSome_some, if_true]
    rw [alookup_map_replace, if_neg h]

/-- Lookup after deleting a key, at that key. -/
theorem alookup_filter_self {β : Type} : ∀ (m : List (String × β)) (k : String),
    alookup k (m.filter fun p => !(p.1 = k)) = none
  | [], k => rfl
  | (k0, v0) :: m', k => by
    by_cases h : k0 = k
    · rw [List.filter_cons_of_neg (by simp [h])]
      exact alookup_filter_self m' k
    · rw [List.filter_cons_of_pos (by simp [h])]
      simp only [alookup, if_neg h]
      exact alookup_filter_self m' k

/-- Lookup after deleting a key, at any other key. -/
theorem alookup_filter_ne {β : Type} : ∀ (m : List (String × β)) (k key : String),
    ¬ k = key → alookup k (m.filter fun p => !(p.1 = key)) = alookup k m
  | [], k, key, _ => rfl
  | (k0, v0) :: m', k, key, h => by
    by_cases h0 : k0 = key
    · rw [List.filter_cons_of_neg (by simp [h0])]
      rw [alookup_filter_ne m' k key h]
      subst h0
      simp [alookup, show ¬ k0 = k from fun hc => h hc.symm]
    · rw [List.filter_cons_of_pos (by simp [h0])]
      simp only [alookup]
      by_cases h2 : k0 = k
      · simp [h2]
      · rw [if_neg h2, if_neg h2]
        exact alookup_filter_ne m' k key h

/-- On every error exit of the gather tail, the cursor map is exactly
the one it was entered with. -/
theorem afterGather_error_cursor (vUpd : Validator) (env : String → DirOracle)
    (cfg : ModelConfig) (s : CompState) (d : AdminDirectory) (key : String)
    (entries : List BundleEntry) (fm : Option String) (e : String) (s' : CompState)
    (h : afterGather vUpd env cfg s d key entries fm = (.error e, s')) :
    s'.lastUpdateTimes = s.lastUpdateTimes := by
  simp only [afterGather] at h
  split at h
  · have hsnd := congrArg Prod.snd h
    simp only at hsnd
    rw [← hsnd]
    split <;> rfl
  · split at h
    · have hsnd := congrArg Prod.snd h
      simp only at hsnd
      rw [← hsnd]
      split <;> rfl
    · split at h
      · exact absurd (congrArg Prod.fst h) (by simp)
      · split at h
        · have hsnd := congrArg Prod.snd h
          simp only at hsnd
          rw [← hsnd]
          split <;> rfl
        · exact absurd (congrArg Prod.fst h) (by simp)

/-- Without snapshot support the history loop never requests the
snapshot fallback. -/
theorem historyLoopAux_no_fallback : ∀ (types : List String) (o : DirOracle)
    (since : Option String) (acc : List BundleEntry) (fm : Option String) (first : Bool),
    ¬ historyLoopAux o false since acc fm first types = .snapshotFallback
  | [], o, since, acc, fm, first => by simp [historyLoopAux]
  | ty :: rest, o, since, acc, fm, first => by
    rw [historyLoopAux]
    cases hq : o.history ty since with
    | error e =>
      by_cases h410 : is410GoneError (some e) = true
      · simp [h410]
      · simp [h410]
    | ok page =>
      exact historyLoopAux_no_fallback rest o since _ _ false

/-- C4 amended, in two parts.  (1) When `SnapshotModeSupport` is
disabled, a sync that ends in a per-source error leaves the cursor map
unchanged — the cursor entry is changed only by a fully-successful
sync.  (2) When snapshot support is enabled and a sync with an
existing cursor falls back to snapshot mode on a 410 and the snapshot
queries succeed, the cursor entry is removed at that point, and it
stays removed even when the rest of the sync fails — the removal is
not contingent on the sync completing. -/
theorem C4_cursor_discipline :
    (∀ (vUpd : Validator) (env : String → DirOracle) (cfg : ModelConfig) (s : CompState)
      (d : AdminDirectory) (e : String) (s' : CompState),
      cfg.snapshotModeSupport = false →
      updateFromDirectory vUpd env cfg s d = (.error e, s') →
      s'.lastUpdateTimes = s.lastUpdateTimes) ∧
    (∀ (vUpd : Validator) (env : String → DirOracle) (cfg : ModelConfig) (s : CompState)
      (d : AdminDirectory) (t msg rt : String) (rts : List String)
      (es : List BundleEntry) (fm : Option String) (e : String) (s' : CompState),
      cfg.snapshotModeSupport = true →
      d.resourceTypes = rt :: rts →
      alookup (makeDirectoryKey d.fhirBaseURL d.authoritativeUra) s.lastUpdateTimes = some t →
      (env d.fhirBaseURL).history rt (some t) = .error msg →
      is410GoneError (some msg) = true →
      snapshotLoop (env d.fhirBaseURL) d.resourceTypes = .ok (es, fm) →
      updateFromDirectory vUpd env cfg s d = (.error e, s') →
      alookup (makeDirectoryKey d.fhirBaseURL d.authoritativeUra) s'.lastUpdateTimes = none) := by
  constructor
  · intro vUpd env cfg s d e s' hsup h
    simp only [updateFromDirectory, hsup, Bool.not_false, if_true] at h
    by_cases hlu : (alookup (makeDirectoryKey d.fhirBaseURL d.authoritativeUra)
        s.lastUpdateTimes).isSome = true
    · rw [if_pos hlu] at h
      cases hg : historyLoop (env d.fhirBaseURL) false
          (alookup (makeDirectoryKey d.fhirBaseURL d.authoritativeUra) s.lastUpdateTimes)
          d.resourceTypes with
      | collected en fm =>
        rw [hg] at h
        exact afterGather_error_cursor vUpd env cfg s d _ en fm e s' h
      | snapshotFallback => exact absurd hg (historyLoopAux_no_fallback _ _ _ _ _ _)
      | failed m =>
        rw [hg] at h
        have hsnd := congrArg Prod.snd h
        have hss : s' = s := by simpa using hsnd.symm
        rw [hss]
    · rw [if_neg hlu] at h
      cases hg : historyLoop (env d.fhirBaseURL) false none d.resourceTypes with
      | collected en fm =>
        rw [hg] at h
        exact afterGather_error_cursor vUpd env cfg s d _ en fm e s' h
      | snapshotFallback => exact absurd hg (historyLoopAux_no_fallback _ _ _ _ _ _)
      | failed m =>
        rw [hg] at h
        have hsnd := congrArg Prod.snd h
        have hss : s' = s := by simpa using hsnd.symm
        rw [hss]
  · intro vUpd env cfg s d t msg rt rts es fm e s' hsup hrts hcur hhist h410 hsnap h
    simp only [updateFromDirectory, hsup] at h
    rw [hcur] at h
    simp only [Option.isSome_some, if_true] at h
    have hfall : historyLoop (env d.fhirBaseURL) true (some t) d.resourceTypes =
        .snapshotFallback := by
      rw [hrts]
      rw [historyLoop, historyLoopAux, hhist]
      simp [h410]
    rw [hfall] at h
    rw [hsnap] at h
    have hcur2 : alookup (makeDirectoryKey d.fhirBaseURL d.authoritativeUra)
        ({ s with lastUpdateTimes := s.lastUpdateTimes.filter fun p =>
            !(p.1 = makeDirectoryKey d.fhirBaseURL d.authoritativeUra) } :
          CompState).lastUpdateTimes = none := alookup_filter_self _ _
    have := afterGather_error_cursor vUpd env cfg _ d _ es fm e s' h
    rw [this]
    exact hcur2

/-- The oracle of the C4 counterexample: `_history` answers 410 Gone,
the snapshot search succeeds with no entries, and the organization
query then fails. -/
def cex410Oracle : DirOracle :=
  { history := fun _ _ => .error "HTTP 410 Gone"
    search := fun _ => .ok ([], some "M1")
    orgSearch := .error "org search unavailable"
    submit := fun _ => .ok []
    fallbackTime := "FT" }

/-- The source directory of the C4 counterexample. -/
def cexDirA : AdminDirectory :=
  { fhirBaseURL := "http://a.example/fhir", resourceTypes := ["Organization"],
    discover := false, sourceURL := "", authoritativeUra := "" }

/-- The component state of the C4 counterexample: a cursor exists for
the source. -/
def cexStateA : CompState :=
  { administrationDirectories := [cexDirA],
    lastUpdateTimes := [("http://a.example/fhir", "T1")] }

/-- Counterexample to C4 as stated: a sync that falls back to snapshot
mode on a 410 and then fails (the organization query errors) is not a
fully-successful sync, yet it removes the cursor entry — the cursor is
changed by a failing sync. -/
theorem C4_counterexample :
    alookup "http://a.example/fhir" cexStateA.lastUpdateTimes = some "T1" ∧
    (updateFromDirectory acceptAllValidator (fun _ => cex410Oracle)
      { snapshotModeSupport := true } cexStateA cexDirA).1 =
      .error "failed to build parent organization map: org search unavailable" ∧
    alookup "http://a.example/fhir"
      (updateFromDirectory acceptAllValidator (fun _ => cex410Oracle)
        { snapshotModeSupport := true } cexStateA cexDirA).2.lastUpdateTimes = none := by
  exact ⟨rfl, rfl, rfl⟩

/-- The oracle of the C4 witness part one: a plain (non-410) history
failure. -/
def cexFailOracle : DirOracle :=
  { history := fun _ _ => .error "boom500"
    search := fun _ => .ok ([], none)
    orgSearch := .ok []
    submit := fun _ => .ok []
    fallbackTime := "FT" }

/-- Witness for C4 at concrete runs: a failing delta sync without
snapshot support leaves the cursor map unchanged, and the 410-fallback
run of the counterexample removes its cursor entry. -/
theorem C4_cursor_discipline_witness :
    ((updateFromDirectory acceptAllValidator (fun _ => cexFailOracle)
        { snapshotModeSupport := false } cexStateA cexDirA).2.lastUpdateTimes =
      cexStateA.lastUpdateTimes) ∧
    (alookup "http://a.example/fhir"
      (updateFromDirectory acceptAllValidator (fun _ => cex410Oracle)
        { snapshotModeSupport := true } cexStateA cexDirA).2.lastUpdateTimes = none) :=
  ⟨C4_cursor_discipline.1 acceptAllValidator (fun _ => cexFailOracle)
      { snapshotModeSupport := false } cexStateA cexDirA
      "failed to query Organization history: boom500"
      (updateFromDirectory acceptAllValidator (fun _ => cexFailOracle)
        { snapshotModeSupport := false } cexStateA cexDirA).2 rfl rfl,
   C4_cursor_discipline.2 acceptAllValidator (fun _ => cex410Oracle)
      { snapshotModeSupport := true } cexStateA cexDirA "T1" "HTTP 410 Gone" "Organization"
      [] [] (some "M1") "failed to build parent organization map: org search unavailable"
      (updateFromDirectory acceptAllValidator (fun _ => cex410Oracle)
        { snapshotModeSupport := true } cexStateA cexDirA).2
      rfl rfl rfl rfl (by decide) rfl rfl⟩

/-- On every exit of the gather tail, lookups of keys other than the
directory's own in the cursor map are unchanged. -/
theorem afterGather_cursor_other (vUpd : Validator) (env : String → DirOracle)
    (cfg : ModelConfig) (s : CompState) (d : AdminDirectory) (key k : String)
    (entries : List BundleEntry) (fm : Option String)
    (r : Except String DirectoryUpdateReport) (s' : CompState)
    (hk : ¬ k = key)
    (h : afterGather vUpd env cfg s d key entries fm = (r, s')) :
    alookup k s'.lastUpdateTimes = alookup k s.lastUpdateTimes := by
  simp only [afterGather] at h
  split at h
  · have hsnd := congrArg Prod.snd h
    simp only at hsnd
    rw [← hsnd]
    split <;> rfl
  · split at h
    · have hsnd := congrArg Prod.snd h
      simp only at hsnd
      rw [← hsnd]
      split <;> rfl
    · split at h
      · have hsnd := congrArg Prod.snd h
        simp only at hsnd
        rw [← hsnd]
        split <;> rfl
      · split at h
        · have hsnd := congrArg Prod.snd h
          simp only at hsnd
          rw [← hsnd]
          split <;> rfl
        · have hsnd := congrArg Prod.snd h
          simp only at hsnd
          rw [← hsnd]
          rw [alookup_assocUpd_ne _ _ _ _ hk]
          split <;> rfl

/-- On every exit of the gather tail of a non-discoverable source, the
directory registry is unchanged. -/
theorem afterGather_dirs_nodiscover (vUpd : Validator) (env : String → DirOracle)
    (cfg : ModelConfig) (s : CompState) (d : AdminDirectory) (key : String)
    (entries : List BundleEntry) (fm : Option String)
    (r : Except String DirectoryUpdateReport) (s' : CompState)
    (hd : d.discover = false)
    (h : afterGather vUpd env cfg s d key entries fm = (r, s')) :
    s'.administrationDirectories = s.administrationDirectories := by
  simp only [afterGather, hd, Bool.false_eq_true, if_false] at h
  split at h
  · have hsnd := congrArg Prod.snd h
    simp only at hsnd
    rw [← hsnd]
  · split at h
    · have hsnd := congrArg Prod.snd h
      simp only at hsnd
      rw [← hsnd]
    · split at h
      · have hsnd := congrArg Prod.snd h
        simp only at hsnd
        rw [← hsnd]
      · split at h
        · have hsnd := congrArg Prod.snd h
          simp only at hsnd
          rw [← hsnd]
        · have hsnd := congrArg Prod.snd h
          simp only at hsnd
          rw [← hsnd]

/-- One source's sync only ever touches its own cursor entry: lookups
of other keys are unchanged. -/
theorem updateFromDirectory_cursor_other (vUpd : Validator) (env : String → DirOracle)
    (cfg : ModelConfig) (s : CompState) (d : AdminDirectory) (k : String)
    (r : Except String DirectoryUpdateReport) (s' : CompState)
    (hk : ¬ k = makeDirectoryKey d.fhirBaseURL d.authoritativeUra)
    (h : updateFromDirectory vUpd env cfg s d = (r, s')) :
    alookup k s'.lastUpdateTimes = alookup k s.lastUpdateTimes := by
  simp only [updateFromDirectory] at h
  split at h
  · have hsnd := congrArg Prod.snd h
    have hss : s' = s := by simpa using hsnd.symm
    rw [hss]
  · exact afterGather_cursor_other vUpd env cfg s d _ k _ _ r s' hk h
  · split at h
    · have hsnd := congrArg Prod.snd h
      have hss : s' = s := by simpa using hsnd.symm
      rw [hss]
    · have h2 := afterGather_cursor_other vUpd env cfg _ d _ k _ _ r s' hk h
      rw [h2]
      exact alookup_filter_ne s.lastUpdateTimes k _ hk

/-- One non-discoverable source's sync never changes the directory
registry. -/
theorem updateFromDirectory_dirs_nodiscover (vUpd : Validator) (env : String → DirOracle)
    (cfg : ModelConfig) (s : CompState) (d : AdminDirectory)
    (r : Except String DirectoryUpdateReport) (s' : CompState)
    (hd : d.discover = false)
    (h : updateFromDirectory vUpd env cfg s d = (r, s')) :
    s'.administrationDirectories = s.administrationDirectories := by
  simp only [updateFromDirectory] at h
  split at h
  · have hsnd := congrArg Prod.snd h
    have hss : s' = s := by simpa using hsnd.symm
    rw [hss]
  · exact afterGather_dirs_nodiscover vUpd env cfg s d _ _ _ r s' hd h
  · split at h
    · have hsnd := congrArg Prod.snd h
      have hss : s' = s := by simpa using hsnd.symm
      rw [hss]
    · have h3 := afterGather_dirs_nodiscover vUpd env cfg _ d _ _ _ r s' hd h
      exact h3

/-- One iteration of the registry loop at an index that holds a
source. -/
theorem updateLoop_step (vUpd : Validator) (env : String → DirOracle) (cfg : ModelConfig)
    (fuel i : Nat) (acc : UpdateReport) (proc : List AdminDirectory) (s : CompState)
    (d : AdminDirectory) (h : s.administrationDirectories[i]? = some d) :
    updateLoop vUpd env cfg (fuel + 1) i acc proc s =
      updateLoop vUpd env cfg fuel (i + 1)
        (assocUpd acc (makeDirectoryKey d.fhirBaseURL d.authoritativeUra)
          (match (updateFromDirectory vUpd env cfg s d).1 with
           | .ok r => r
           | .error e => { errors := [e] }))
        (proc ++ [d]) (updateFromDirectory vUpd env cfg s d).2 := by
  rw [updateLoop, h]

/-- The registry loop stops at the first index past the registry. -/
theorem updateLoop_done (vUpd : Validator) (env : String → DirOracle) (cfg : ModelConfig)
    (fuel i : Nat) (acc : UpdateReport) (proc : List AdminDirectory) (s : CompState)
    (h : s.administrationDirectories[i]? = none) :
    updateLoop vUpd env cfg fuel i acc proc s = some (acc, proc, s) := by
  rw [updateLoop, h]

/-- C6: when a source's history query fails with a 410-Gone signal
while snapshot support is disabled, the run records the fatal error in
that source's report block, leaves that source's cursor entry
unchanged, and proceeds to the next source, which gets its own report
block. -/
theorem C6_410_without_snapshot_support
    (vUpd : Validator) (env : String → DirOracle) (cfg : ModelConfig) (s : CompState)
    (d1 d2 : AdminDirectory) (rt : String) (rts : List String) (t msg : String)
    (hsup : cfg.snapshotModeSupport = false)
    (hrts : d1.resourceTypes = rt :: rts)
    (hdirs : s.administrationDirectories = [d1, d2])
    (hd2 : d2.discover = false)
    (hkeys : ¬ makeDirectoryKey d1.fhirBaseURL d1.authoritativeUra =
      makeDirectoryKey d2.fhirBaseURL d2.authoritativeUra)
    (hcur : alookup (makeDirectoryKey d1.fhirBaseURL d1.authoritativeUra)
      s.lastUpdateTimes = some t)
    (hhist : (env d1.fhirBaseURL).history rt (some t) = .error msg)
    (h410 : is410GoneError (some msg) = true) :
    ∃ (rep : UpdateReport) (proc : List AdminDirectory) (s' : CompState),
      update vUpd env cfg 2 s = some (rep, proc, s') ∧
      alookup (makeDirectoryKey d1.fhirBaseURL d1.authoritativeUra) rep =
        some { errors := ["410 Gone: history too old for " ++ rt ++
          " and Snapshot Mode is disabled, cannot sync"] } ∧
      (alookup (makeDirectoryKey d2.fhirBaseURL d2.authoritativeUra) rep).isSome = true ∧
      alookup (makeDirectoryKey d1.fhirBaseURL d1.authoritativeUra) s'.lastUpdateTimes =
        alookup (makeDirectoryKey d1.fhirBaseURL d1.authoritativeUra) s.lastUpdateTimes ∧
      proc = [d1, d2] := by
  have hs1 : updateFromDirectory vUpd env cfg s d1 =
      (.error ("410 Gone: history too old for " ++ rt ++
        " and Snapshot Mode is disabled, cannot sync"), s) := by
    simp only [updateFromDirectory, hsup]
    rw [hcur]
    simp only [Option.isSome_some, if_true]
    rw [hrts, historyLoop, historyLoopAux, hhist]
    simp [h410]
  have h0 : s.administrationDirectories[0]? = some d1 := by rw [hdirs]; rfl
  have h1 : s.administrationDirectories[1]? = some d2 := by rw [hdirs]; rfl
  have hd2dirs : (updateFromDirectory vUpd env cfg s d2).2.administrationDirectories =
      s.administrationDirectories :=
    updateFromDirectory_dirs_nodiscover vUpd env cfg s d2 _ _ hd2 rfl
  have h2 : (updateFromDirectory vUpd env cfg s d2).2.administrationDirectories[2]? = none := by
    rw [hd2dirs, hdirs]; rfl
  obtain ⟨rep2, hrun⟩ : ∃ rep2, update vUpd env cfg 2 s =
      some (assocUpd (assocUpd []
          (makeDirectoryKey d1.fhirBaseURL d1.authoritativeUra)
          { errors := ["410 Gone: history too old for " ++ rt ++
            " and Snapshot Mode is disabled, cannot sync"] })
        (makeDirectoryKey d2.fhirBaseURL d2.authoritativeUra) rep2,
        [d1, d2], (updateFromDirectory vUpd env cfg s d2).2) := by
    refine ⟨(match (updateFromDirectory vUpd env cfg s d2).1 with
      | .ok r => r
      | .error e => { errors := [e] }), ?_⟩
    rw [update]
    show updateLoop vUpd env cfg (1 + 1) 0 [] [] s = _
    rw [updateLoop_step vUpd env cfg 1 0 [] [] s d1 h0, hs1]
    show updateLoop vUpd env cfg (0 + 1) 1
      (assocUpd [] (makeDirectoryKey d1.fhirBaseURL d1.authoritativeUra)
        { errors := ["410 Gone: history too old for " ++ rt ++
          " and Snapshot Mode is disabled, cannot sync"] }) [d1] s = _
    rw [updateLoop_step vUpd env cfg 0 1 _ [d1] s d2 h1]
    exact updateLoop_done vUpd env cfg 0 2 _ _ _ h2
  refine ⟨_, [d1, d2], (updateFromDirectory vUpd env cfg s d2).2, hrun, ?_, ?_, ?_, rfl⟩
  · rw [alookup_assocUpd_ne _ _ _ _ hkeys, alookup_assocUpd_self]
  · rw [alookup_assocUpd_self]
    rfl
  · exact updateFromDirectory_cursor_other vUpd env cfg s d2 _ _ _ hkeys rfl

/-- The oracle environment of the C6 witness: the first source's
history answers 410 Gone, the second source behaves and is empty. -/
def c6Env : String → DirOracle := fun base =>
  if base = "http://a.example/fhir" then
    { history := fun _ _ => .error "HTTP 410 Gone", search := fun _ => .ok ([], none),
      orgSearch := .ok [], submit := fun _ => .ok [], fallbackTime := "FT" }
  else
    { history := fun _ _ => .ok ([], none), search := fun _ => .ok ([], none),
      orgSearch := .ok [], submit := fun _ => .ok [], fallbackTime := "FT" }

/-- The first source of the C6 witness. -/
def c6DirA : AdminDirectory :=
  { fhirBaseURL := "http://a.example/fhir", resourceTypes := ["Organization"],
    discover := false, sourceURL := "", authoritativeUra := "" }

/-- The second source of the C6 witness. -/
def c6DirB : AdminDirectory :=
  { fhirBaseURL := "http://b.example/fhir", resourceTypes := ["Organization"],
    discover := false, sourceURL := "", authoritativeUra := "" }

/-- The component state of the C6 witness: both sources registered, a
cursor for the first. -/
def c6State : CompState :=
  { administrationDirectories := [c6DirA, c6DirB],
    lastUpdateTimes := [("http://a.example/fhir", "T1")] }

/-- Witness for C6 at a concrete two-source run. -/
theorem C6_410_without_snapshot_support_witness :
    ∃ (rep : UpdateReport) (proc : List AdminDirectory) (s' : CompState),
      update acceptAllValidator c6Env { snapshotModeSupport := false } 2 c6State =
        some (rep, proc, s') ∧
      alookup (makeDirectoryKey c6DirA.fhirBaseURL c6DirA.authoritativeUra) rep =
        some { errors := ["410 Gone: history too old for " ++ "Organization" ++
          " and Snapshot Mode is disabled, cannot sync"] } ∧
      (alookup (makeDirectoryKey c6DirB.fhirBaseURL c6DirB.authoritativeUra) rep).isSome = true ∧
      alookup (makeDirectoryKey c6DirA.fhirBaseURL c6DirA.authoritativeUra)
        s'.lastUpdateTimes =
        alookup (makeDirectoryKey c6DirA.fhirBaseURL c6DirA.authoritativeUra)
          c6State.lastUpdateTimes ∧
      proc = [c6DirA, c6DirB] :=
  C6_410_without_snapshot_support acceptAllValidator c6Env { snapshotModeSupport := false }
    c6State c6DirA c6DirB "Organization" [] "T1" "HTTP 410 Gone"
    rfl rfl rfl rfl (by decide) rfl rfl (by decide)

/-- The registry loop runs out of fuel at an index that holds a
source. -/
theorem updateLoop_stuck (vUpd : Validator) (env : String → DirOracle) (cfg : ModelConfig)
    (i : Nat) (acc : UpdateReport) (proc : List AdminDirectory) (s : CompState)
    (d : AdminDirectory) (h : s.administrationDirectories[i]? = some d) :
    updateLoop vUpd env cfg 0 i acc proc s = none := by
  rw [updateLoop, h]

/-- The registry-loop invariant behind C7: when every single-source
sync only ever appends to the registry, the processed list is exactly
the final registry in insertion order, and the final registry extends
the initial one. -/
theorem updateLoop_processed (vUpd : Validator) (env : String → DirOracle) (cfg : ModelConfig)
    (hstep : ∀ (st : CompState) (dd : AdminDirectory), ∃ ext,
      (updateFromDirectory vUpd env cfg st dd).2.administrationDirectories =
        st.administrationDirectories ++ ext) :
    ∀ (fuel i : Nat) (acc rep : UpdateReport) (proc procF : List AdminDirectory)
      (s s' : CompState),
      proc = s.administrationDirectories.take i →
      updateLoop vUpd env cfg fuel i acc proc s = some (rep, procF, s') →
      procF = s'.administrationDirectories ∧
      ∃ ext, s'.administrationDirectories = s.administrationDirectories ++ ext := by
  intro fuel
  induction fuel with
  | zero =>
    intro i acc rep proc procF s s' hproc h
    cases hgi : s.administrationDirectories[i]? with
    | none =>
      rw [updateLoop_done vUpd env cfg 0 i acc proc s hgi] at h
      rw [Option.some.injEq, Prod.mk.injEq, Prod.mk.injEq] at h
      obtain ⟨h1, h2, h3⟩ := h
      have hlen : s.administrationDirectories.length ≤ i := by
        by_contra hno
        have hx := @List.getElem?_eq_getElem _ s.administrationDirectories i (by omega)
        rw [hx] at hgi
        exact Option.noConfusion hgi
      subst h3
      refine ⟨?_, [], (List.append_nil _).symm⟩
      rw [← h2, hproc]
      exact List.take_of_length_le hlen
    | some d =>
      rw [updateLoop_stuck vUpd env cfg i acc proc s d hgi] at h
      exact Option.noConfusion h
  | succ fuel ih =>
    intro i acc rep proc procF s s' hproc h
    cases hgi : s.administrationDirectories[i]? with
    | none =>
      rw [updateLoop_done vUpd env cfg (fuel + 1) i acc proc s hgi] at h
      rw [Option.some.injEq, Prod.mk.injEq, Prod.mk.injEq] at h
      obtain ⟨h1, h2, h3⟩ := h
      have hlen : s.administrationDirectories.length ≤ i := by
        by_contra hno
        have hx := @List.getElem?_eq_getElem _ s.administrationDirectories i (by omega)
        rw [hx] at hgi
        exact Option.noConfusion hgi
      subst h3
      refine ⟨?_, [], (List.append_nil _).symm⟩
      rw [← h2, hproc]
      exact List.take_of_length_le hlen
    | some d =>
      rw [updateLoop_step vUpd env cfg fuel i acc proc s d hgi] at h
      obtain ⟨ext, hext⟩ := hstep s d
      have hlt : i < s.administrationDirectories.length := by
        by_contra hno
        have hx := @List.getElem?_eq_none _ s.administrationDirectories i (by omega)
        rw [hx] at hgi
        exact Option.noConfusion hgi
      have hproc2 : proc ++ [d] =
          (updateFromDirectory vUpd env cfg s d).2.administrationDirectories.take (i + 1) := by
        rw [hext, List.take_append_of_le_length (by omega), List.take_succ, hgi, hproc]
        rfl
      obtain ⟨hm1, ext2, hext2⟩ := ih (i + 1) _ rep (proc ++ [d]) procF _ s' hproc2 h
      exact ⟨hm1, ext ++ ext2, by rw [hext2, hext, List.append_assoc]⟩

/-- C7 amended: when every single-source sync only ever appends to the
registry, a completed run processes exactly the final registry in its
insertion order — in particular every entry appended by discovery
during the run is processed in the same run, after all entries that
preceded it.  (The append-only proviso is necessary: discovery can
also unregister entries, see the counterexample.) -/
theorem C7_processing_order (vUpd : Validator) (env : String → DirOracle) (cfg : ModelConfig)
    (fuel : Nat) (s : CompState) (rep : UpdateReport) (procF : List AdminDirectory)
    (s' : CompState)
    (hstep : ∀ (st : CompState) (dd : AdminDirectory), ∃ ext,
      (updateFromDirectory vUpd env cfg st dd).2.administrationDirectories =
        st.administrationDirectories ++ ext)
    (h : update vUpd env cfg fuel s = some (rep, procF, s')) :
    procF = s'.administrationDirectories ∧
    ∃ ext, s'.administrationDirectories = s.administrationDirectories ++ ext :=
  updateLoop_processed vUpd env cfg hstep fuel 0 [] rep [] procF s s' rfl h

/-- The mCSD-directory Endpoint of the C7 counterexample, pointing at
provider B. -/
def c7EpJson : Json := .obj (.cons "resourceType" (.str "Endpoint") (.cons "id" (.str "e1")
  (.cons "address" (.str "http://provider-b.example/fhir")
  (.cons "payloadType" (.arr (.cons (.obj (.cons "coding" (.arr (.cons (.obj
    (.cons "system" (.str mcsdPayloadTypeSystem)
      (.cons "code" (.str mcsdPayloadTypeDirectoryCode) .nil))) .nil)) .nil)) .nil)) .nil))))

/-- The feed entry carrying the discovery Endpoint (C7). -/
def c7EpEntry : BundleEntry :=
  { fullUrl := some "http://root1.example/fhir/Endpoint/e1", resource := some c7EpJson,
    request := some { method := .post, url := "Endpoint" } }

/-- The URA-bearing parent organization referencing the Endpoint (C7). -/
def c7OrgPJson : Json := .obj (.cons "resourceType" (.str "Organization") (.cons "id" (.str "p")
  (.cons "identifier" (.arr (.cons (.obj (.cons "system" (.str uraNamingSystem)
    (.cons "value" (.str "100") .nil))) .nil))
  (.cons "endpoint" (.arr (.cons (.obj (.cons "reference" (.str "Endpoint/e1") .nil)) .nil))
    .nil))))

/-- The second root's DELETE of the same Endpoint (C7). -/
def c7DelEntry : BundleEntry :=
  { fullUrl := some "http://root1.example/fhir/Endpoint/e1",
    request := some { method := .delete, url := "Endpoint/e1" } }

/-- The feed entry carrying the parent organization (C7). -/
def c7OrgPEntry : BundleEntry :=
  { fullUrl := some "http://root1.example/fhir/Organization/p", resource := some c7OrgPJson }

/-- The first root's oracle (C7): publishes the Endpoint and the
parent organization. -/
def c7Oracle1 : DirOracle :=
  { history := fun ty _ => if ty = "Endpoint" then .ok ([c7EpEntry], none) else .ok ([], none)
    search := fun _ => .error "unused"
    orgSearch := .ok [c7OrgPEntry]
    submit := fun _ => .ok []
    fallbackTime := "FT1" }

/-- The second root's oracle (C7): publishes the DELETE of the
Endpoint. -/
def c7Oracle2 : DirOracle :=
  { history := fun ty _ => if ty = "Endpoint" then .ok ([c7DelEntry], none) else .ok ([], none)
    search := fun _ => .error "unused"
    orgSearch := .ok []
    submit := fun _ => .ok []
    fallbackTime := "FT2" }

/-- The oracle environment of the C7 counterexample. -/
def c7Env : String → DirOracle := fun base =>
  if base = "http://root1.example/fhir" then c7Oracle1
  else if base = "http://root2.example/fhir" then c7Oracle2
  else { history := fun _ _ => .error "unknown", search := fun _ => .error "unknown",
         orgSearch := .error "unknown", submit := fun _ => .error "unknown", fallbackTime := "" }

/-- The first configured root of the C7 counterexample. -/
def c7Dir1 : AdminDirectory :=
  { fhirBaseURL := "http://root1.example/fhir", resourceTypes := rootDirectoryResourceTypes,
    discover := true, sourceURL := "", authoritativeUra := "" }

/-- The second configured root of the C7 counterexample. -/
def c7Dir2 : AdminDirectory :=
  { fhirBaseURL := "http://root2.example/fhir", resourceTypes := rootDirectoryResourceTypes,
    discover := true, sourceURL := "", authoritativeUra := "" }

/-- The engine configuration of the C7 counterexample. -/
def c7Cfg : ModelConfig := { snapshotModeSupport := false }

/-- The initial state of the C7 counterexample. -/
def c7State0 : CompState := { administrationDirectories := [c7Dir1, c7Dir2] }

/-- The provider directory appended by discovery during the C7 run. -/
def c7DirB : AdminDirectory :=
  { fhirBaseURL := "http://provider-b.example/fhir",
    resourceTypes := defaultDirectoryResourceTypes, discover := false,
    sourceURL := "http://root1.example/fhir/Endpoint/e1", authoritativeUra := "100" }

set_option maxRecDepth 4000 in
/-- Counterexample to C7 as stated: the first root's sync appends
provider B to the registry by discovery, yet the completed run
processes only the two roots — B is unregistered again by the second
root's Endpoint DELETE before the iteration reaches it, so an entry
appended by discovery during the run need not be processed in the
same run. -/
theorem C7_counterexample :
    (updateFromDirectory acceptAllValidator c7Env c7Cfg c7State0
      c7Dir1).2.administrationDirectories = [c7Dir1, c7Dir2, c7DirB] ∧
    ((update acceptAllValidator c7Env c7Cfg 3 c7State0).map fun r => r.2.1) =
      some [c7Dir1, c7Dir2] ∧
    ¬ c7DirB ∈ [c7Dir1, c7Dir2] :=
  ⟨rfl, rfl, by decide⟩

/-- The all-failing oracle of the C7 witness. -/
def c7FailOracle : DirOracle :=
  { history := fun _ _ => .error "boom"
    search := fun _ => .error "boom"
    orgSearch := .error "boom"
    submit := fun _ => .error "boom"
    fallbackTime := "FT" }

/-- Against the all-failing oracle the history loop either collects
nothing (no resource types) or fails. -/
theorem c7FailOracle_history (since : Option String) : ∀ (types : List String),
    historyLoop c7FailOracle false since types = GatherOutcome.collected [] none ∨
    ∃ m, historyLoop c7FailOracle false since types = GatherOutcome.failed m
  | [] => Or.inl rfl
  | ty :: _rest => Or.inr ⟨"failed to query " ++ ty ++ " history: " ++ "boom", rfl⟩

/-- Against the all-failing oracle the gather tail fails at the
organization query and keeps the registry. -/
theorem c7FailOracle_afterGather (st : CompState) (dd : AdminDirectory) (key : String) :
    (afterGather acceptAllValidator (fun _ => c7FailOracle) ({} : ModelConfig) st dd key []
      none).2.administrationDirectories = st.administrationDirectories := by
  simp only [afterGather]
  rw [show ensureParentOrganizationsMap c7FailOracle dd.authoritativeUra =
    Except.error "boom" from rfl]
  dsimp only
  by_cases hd : dd.discover = true
  · rw [if_pos hd]
    rfl
  · rw [if_neg hd]

/-- Against the all-failing oracle every single-source sync keeps the
registry unchanged. -/
theorem c7FailOracle_dirs : ∀ (st : CompState) (dd : AdminDirectory), ∃ ext,
    (updateFromDirectory acceptAllValidator (fun _ => c7FailOracle)
      ({} : ModelConfig) st dd).2.administrationDirectories =
      st.administrationDirectories ++ ext := by
  intro st dd
  refine ⟨[], ?_⟩
  rw [List.append_nil]
  simp only [updateFromDirectory]
  by_cases hlu : (alookup (makeDirectoryKey dd.fhirBaseURL dd.authoritativeUra)
      st.lastUpdateTimes).isSome = true
  · rw [if_pos hlu]
    rcases c7FailOracle_history (alookup (makeDirectoryKey dd.fhirBaseURL dd.authoritativeUra)
        st.lastUpdateTimes) dd.resourceTypes with hg | ⟨m, hg⟩
    · rw [hg]
      exact c7FailOracle_afterGather st dd _
    · rw [hg]
  · rw [if_neg hlu]
    simp only [Bool.not_false, if_true]
    rcases c7FailOracle_history none dd.resourceTypes with hg | ⟨m, hg⟩
    · rw [hg]
      exact c7FailOracle_afterGather st dd _
    · rw [hg]

/-- The single source of the C7 witness run. -/
def c7wDir : AdminDirectory :=
  { fhirBaseURL := "http://w.example/fhir", resourceTypes := ["Organization"],
    discover := false, sourceURL := "", authoritativeUra := "" }

/-- The initial state of the C7 witness run. -/
def c7wState : CompState := { administrationDirectories := [c7wDir], lastUpdateTimes := [] }

/-- Witness for C7 at a concrete run against the all-failing
oracle. -/
theorem C7_processing_order_witness :
    [c7wDir] = c7wState.administrationDirectories ∧
    ∃ ext, c7wState.administrationDirectories =
      c7wState.administrationDirectories ++ ext :=
  C7_processing_order acceptAllValidator (fun _ => c7FailOracle) ({} : ModelConfig) 2 c7wState
    (assocUpd [] (makeDirectoryKey c7wDir.fhirBaseURL c7wDir.authoritativeUra)
      { errors := ["failed to query " ++ "Organization" ++ " history: " ++ "boom"] })
    [c7wDir] c7wState c7FailOracle_dirs rfl

/-- A successful lookup locates a stored pair. -/
theorem alookup_mem {β : Type} : ∀ (m : List (String × β)) (k : String) (v : β),
    alookup k m = some v → (k, v) ∈ m
  | [], k, v, h => by simp [alookup] at h
  | (k0, v0) :: m', k, v, h => by
    by_cases hk : k0 = k
    · subst hk
      rw [alookup, if_pos rfl] at h
      injection h with h
      rw [← h]
      exact List.mem_cons_self _ _
    · simp only [alookup, if_neg hk] at h
      exact List.mem_cons_of_mem _ (alookup_mem m' k v h)

/-- With distinct keys a key determines its stored value. -/
theorem pair_value_unique {β : Type} : ∀ (m : List (String × β)) (k : String) (v v' : β),
    (m.map Prod.fst).Nodup → (k, v) ∈ m → (k, v') ∈ m → v = v'
  | [], k, v, v', _, h1, _ => by simp at h1
  | (k0, v0) :: m', k, v, v', hnd, h1, h2 => by
    simp only [List.map_cons, List.nodup_cons] at hnd
    rcases List.mem_cons.mp h1 with he1 | ht1
    · rcases List.mem_cons.mp h2 with he2 | ht2
      · rw [Prod.mk.injEq] at he1 he2
        exact he1.2.trans he2.2.symm
      · rw [Prod.mk.injEq] at he1
        exact absurd (he1.1 ▸ List.mem_map_of_mem Prod.fst ht2) hnd.1
    · rcases List.mem_cons.mp h2 with he2 | ht2
      · rw [Prod.mk.injEq] at he2
        exact absurd (he2.1 ▸ List.mem_map_of_mem Prod.fst ht1) hnd.1
      · exact pair_value_unique m' k v v' hnd.2 ht1 ht2

/-- In a map whose values carry their own key as id and whose keys are
distinct, the id determines the stored organization. -/
theorem orgValue_unique (m : List (String × Organization))
    (hinv : ∀ p ∈ m, p.2.id = some p.1) (hnd : (m.map Prod.fst).Nodup)
    (o r : Organization) (ho : o ∈ m.map Prod.snd) (hr : r ∈ m.map Prod.snd)
    (hid : o.id = r.id) : o = r := by
  obtain ⟨po, hpo, hpo2⟩ := List.mem_map.mp ho
  obtain ⟨pr, hpr, hpr2⟩ := List.mem_map.mp hr
  have ho1 : o.id = some po.1 := hpo2 ▸ hinv po hpo
  have hr1 : r.id = some pr.1 := hpr2 ▸ hinv pr hpr
  have hkey : po.1 = pr.1 :=
    Option.some_inj.mp (ho1.symm.trans (hid.trans hr1))
  have hpo3 : (po.1, po.2) ∈ m := hpo
  have hpr3 : (po.1, pr.2) ∈ m := hkey.symm ▸ (show (pr.1, pr.2) ∈ m from hpr)
  have hvv := pair_value_unique m po.1 po.2 pr.2 hnd hpo3 hpr3
  rw [← hpo2, ← hpr2]
  exact hvv

/-- The next organization of the chain walk is a stored value. -/
theorem next_mem (m : List (String × Organization)) (o n : Organization)
    (h : organizationLinksNext m o = some n) : n ∈ m.map Prod.snd := by
  rw [organizationLinksNext] at h
  cases hpo : o.partOf with
  | none => rw [hpo] at h; exact absurd h (by simp)
  | some po =>
    rw [hpo] at h
    dsimp only at h
    cases hr : po.reference with
    | none => rw [hr] at h; exact absurd h (by simp)
    | some ref =>
      rw [hr] at h
      dsimp only at h
      exact List.mem_map_of_mem Prod.snd (alookup_mem m _ n h)

/-- Membership after a Go map assignment: the new pair or an old
one. -/
theorem assocUpd_mem {β : Type} (m : List (String × β)) (k : String) (v : β) (p : String × β)
    (h : p ∈ assocUpd m k v) : p = (k, v) ∨ p ∈ m := by
  rw [assocUpd] at h
  by_cases hs : (alookup k m).isSome = true
  · rw [if_pos hs] at h
    obtain ⟨⟨q1, q2⟩, hq, hq2⟩ := List.mem_map.mp h
    by_cases hqk : q1 = k
    · left
      rw [← hq2, replacePair_eq k v q1 q2 hqk]
    · right
      rw [← hq2, replacePair_ne k v q1 q2 hqk]
      exact hq
  · rw [if_neg hs] at h
    rcases List.mem_append.mp h with h | h
    · right; exact h
    · left; simpa using h

/-- Key distinctness survives a Go map assignment. -/
theorem assocUpd_keys_nodup {β : Type} (m : List (String × β)) (k : String) (v : β)
    (hnd : (m.map Prod.fst).Nodup) : ((assocUpd m k v).map Prod.fst).Nodup := by
  rw [assocUpd]
  by_cases hs : (alookup k m).isSome = true
  · rw [if_pos hs]
    have hfst : ∀ (m2 : List (String × β)),
        (m2.map (replacePair k v)).map Prod.fst = m2.map Prod.fst := by
      intro m2
      induction m2 with
      | nil => rfl
      | cons q m' ihq =>
        obtain ⟨q1, q2⟩ := q
        by_cases hq : q1 = k
        · rw [List.map_cons, replacePair_eq k v q1 q2 hq]
          dsimp only [List.map_cons]
          rw [ihq, hq]
        · simp [replacePair_ne k v q1 q2 hq, ihq]
    rw [hfst]
    exact hnd
  · rw [if_neg hs]
    have h0 : alookup k m = none := by
      cases hl : alookup k m with
      | none => rfl
      | some w => exact absurd (by rw [hl]; rfl) hs
    have hnk : ¬ k ∈ m.map Prod.fst := alookup_none_not_key m k h0
    rw [List.map_append]
    simp [List.nodup_append, hnd, hnk]

/-- The organization map of the tree builder stores every organization
under its own id and keeps keys distinct. -/
theorem buildOrgMap'_inv : ∀ (es : List BundleEntry) (m : List (String × Organization)),
    (∀ p ∈ m, p.2.id = some p.1) → (m.map Prod.fst).Nodup →
    (∀ p ∈ buildOrgMap' m es, p.2.id = some p.1) ∧
      ((buildOrgMap' m es).map Prod.fst).Nodup
  | [], m, hinv, hnd => ⟨hinv, hnd⟩
  | entry :: rest, m, hinv, hnd => by
    rw [buildOrgMap']
    cases hr : entry.resource with
    | none => exact buildOrgMap'_inv rest m hinv hnd
    | some j =>
      dsimp only
      cases ho : orgOfJson j with
      | none => exact buildOrgMap'_inv rest m hinv hnd
      | some org =>
        dsimp only
        cases hoi : org.id with
        | none => exact buildOrgMap'_inv rest m hinv hnd
        | some i =>
          dsimp only
          refine buildOrgMap'_inv rest (assocUpd m i org) ?_ (assocUpd_keys_nodup m i org hnd)
          intro p hp
          rcases assocUpd_mem m i org p hp with hpe | hpm
          · rw [hpe]
            exact hoi
          · exact hinv p hpm

/-- The id-check stage on an organization without an id. -/
theorem precheck_id_none (org parentOrg : Organization) (vis : List String)
    (h : org.id = none) : organizationLinksPrecheck org parentOrg vis = none := by
  rw [organizationLinksPrecheck, h]

/-- The id-check stage on a revisited id. -/
theorem precheck_revisit (org parentOrg : Organization) (vis : List String) (i : String)
    (h : org.id = some i) (hv : i ∈ vis) :
    organizationLinksPrecheck org parentOrg vis = some false := by
  rw [organizationLinksPrecheck, h]
  simp [hv]

/-- The id-check stage when the parent is reached. -/
theorem precheck_hit (org parentOrg : Organization) (vis : List String) (i : String)
    (h : org.id = some i) (hv : ¬ i ∈ vis) (hp : parentOrg.id = some i) :
    organizationLinksPrecheck org parentOrg vis = some true := by
  rw [organizationLinksPrecheck, h]
  simp [hv, hp]

/-- The id-check stage when the walk continues. -/
theorem precheck_go (org parentOrg : Organization) (vis : List String) (i : String)
    (h : org.id = some i) (hv : ¬ i ∈ vis) (hp : ¬ parentOrg.id = some i) :
    organizationLinksPrecheck org parentOrg vis = none := by
  rw [organizationLinksPrecheck, h]
  simp [hv, hp]

/-- More fuel and a smaller visited set preserve a successful chain
walk. -/
theorem organizationLinksGo_mono (orgMap : List (String × Organization))
    (parentOrg : Organization) :
    ∀ (fuel fuel' : Nat) (org : Organization) (vis vis' : List String),
      fuel ≤ fuel' → (∀ x, x ∈ vis' → x ∈ vis) →
      organizationLinksGo orgMap parentOrg fuel org vis = true →
      organizationLinksGo orgMap parentOrg fuel' org vis' = true := by
  intro fuel
  induction fuel with
  | zero =>
    intro fuel' org vis vis' hf hsub h
    rw [organizationLinksGo] at h
    exact absurd h (by simp)
  | succ f ihm =>
    intro fuel' org vis vis' hf hsub h
    cases fuel' with
    | zero => exact absurd hf (by omega)
    | succ f' =>
      rw [organizationLinksGo] at h
      rw [organizationLinksGo]
      cases hid : org.id with
      | none =>
        rw [precheck_id_none org parentOrg vis hid] at h
        rw [precheck_id_none org parentOrg vis' hid]
        dsimp only at h ⊢
        cases hnx : organizationLinksNext orgMap org with
        | none => rw [hnx] at h; exact absurd h (by simp)
        | some n =>
          rw [hnx] at h
          dsimp only at h ⊢
          have hva : organizationLinksVisitedAfter org vis = vis := by
            rw [organizationLinksVisitedAfter, hid]
          have hva' : organizationLinksVisitedAfter org vis' = vis' := by
            rw [organizationLinksVisitedAfter, hid]
          rw [hva] at h
          rw [hva']
          exact ihm f' n vis vis' (by omega) hsub h
      | some i =>
        by_cases hvi : i ∈ vis
        · rw [precheck_revisit org parentOrg vis i hid hvi] at h
          dsimp only at h
          exact absurd h (by simp)
        · have hvi' : ¬ i ∈ vis' := fun hc => hvi (hsub i hc)
          by_cases hpar : parentOrg.id = some i
          · rw [precheck_hit org parentOrg vis' i hid hvi' hpar]
          · rw [precheck_go org parentOrg vis i hid hvi hpar] at h
            rw [precheck_go org parentOrg vis' i hid hvi' hpar]
            dsimp only at h ⊢
            cases hnx : organizationLinksNext orgMap org with
            | none => rw [hnx] at h; exact absurd h (by simp)
            | some n =>
              rw [hnx] at h
              dsimp only at h ⊢
              have hva : organizationLinksVisitedAfter org vis = i :: vis := by
                rw [organizationLinksVisitedAfter, hid]
              have hva' : organizationLinksVisitedAfter org vis' = i :: vis' := by
                rw [organizationLinksVisitedAfter, hid]
              rw [hva] at h
              rw [hva']
              refine ihm f' n (i :: vis) (i :: vis') (by omega) ?_ h
              intro x hx
              rcases List.mem_cons.mp hx with hx | hx
              · exact hx ▸ List.mem_cons_self i vis
              · exact List.mem_cons_of_mem i (hsub x hx)

/-- Two successful chain walks from the same stored organization
toward two stored roots: the walk toward one root passes through the
other, so one root's chain walk reaches the other root. -/
theorem organizationLinksGo_two (orgMap : List (String × Organization)) (r1 r2 : Organization)
    (hinv : ∀ p ∈ orgMap, p.2.id = some p.1) (hnd : (orgMap.map Prod.fst).Nodup)
    (hr1 : r1 ∈ orgMap.map Prod.snd) (hr2 : r2 ∈ orgMap.map Prod.snd) :
    ∀ (fuel1 fuel2 : Nat) (o : Organization) (vis : List String),
      o ∈ orgMap.map Prod.snd →
      organizationLinksGo orgMap r1 fuel1 o vis = true →
      organizationLinksGo orgMap r2 fuel2 o vis = true →
      organizationLinksGo orgMap r2 fuel2 r1 vis = true ∨
      organizationLinksGo orgMap r1 fuel1 r2 vis = true := by
  intro fuel1
  induction fuel1 with
  | zero =>
    intro fuel2 o vis ho h1 h2
    rw [organizationLinksGo] at h1
    exact absurd h1 (by simp)
  | succ f1 ih =>
    intro fuel2 o vis ho h1 h2
    cases fuel2 with
    | zero =>
      rw [organizationLinksGo] at h2
      exact absurd h2 (by simp)
    | succ f2 =>
      cases hid : o.id with
      | none =>
        rw [organizationLinksGo, precheck_id_none o r1 vis hid] at h1
        rw [organizationLinksGo, precheck_id_none o r2 vis hid] at h2
        dsimp only at h1 h2
        cases hnx : organizationLinksNext orgMap o with
        | none => rw [hnx] at h1; exact absurd h1 (by simp)
        | some n =>
          rw [hnx] at h1 h2
          dsimp only at h1 h2
          have hva : organizationLinksVisitedAfter o vis = vis := by
            rw [organizationLinksVisitedAfter, hid]
          rw [hva] at h1 h2
          rcases ih f2 n vis (next_mem orgMap o n hnx) h1 h2 with hL | hR
          · exact Or.inl (organizationLinksGo_mono orgMap r2 f2 (f2 + 1) r1 vis vis
              (Nat.le_succ f2) (fun x hx => hx) hL)
          · exact Or.inr (organizationLinksGo_mono orgMap r1 f1 (f1 + 1) r2 vis vis
              (Nat.le_succ f1) (fun x hx => hx) hR)
      | some i =>
        by_cases hvi : i ∈ vis
        · rw [organizationLinksGo, precheck_revisit o r1 vis i hid hvi] at h1
          dsimp only at h1
          exact absurd h1 (by simp)
        · by_cases hpar1 : r1.id = some i
          · have hoeq : o = r1 := orgValue_unique orgMap hinv hnd o r1 ho hr1 (by rw [hid, hpar1])
            left
            rw [hoeq] at h2
            exact h2
          · by_cases hpar2 : r2.id = some i
            · have hoeq : o = r2 := orgValue_unique orgMap hinv hnd o r2 ho hr2 (by rw [hid, hpar2])
              right
              rw [hoeq] at h1
              exact h1
            · rw [organizationLinksGo, precheck_go o r1 vis i hid hvi hpar1] at h1
              rw [organizationLinksGo, precheck_go o r2 vis i hid hvi hpar2] at h2
              dsimp only at h1 h2
              cases hnx : organizationLinksNext orgMap o with
              | none => rw [hnx] at h1; exact absurd h1 (by simp)
              | some n =>
                rw [hnx] at h1 h2
                dsimp only at h1 h2
                have hva : organizationLinksVisitedAfter o vis = i :: vis := by
                  rw [organizationLinksVisitedAfter, hid]
                rw [hva] at h1 h2
                rcases ih f2 n (i :: vis) (next_mem orgMap o n hnx) h1 h2 with hL | hR
                · exact Or.inl (organizationLinksGo_mono orgMap r2 f2 (f2 + 1) r1 (i :: vis) vis
                    (Nat.le_succ f2) (fun x hx => List.mem_cons_of_mem i hx) hL)
                · exact Or.inr (organizationLinksGo_mono orgMap r1 f1 (f1 + 1) r2 (i :: vis) vis
                    (Nat.le_succ f1) (fun x hx => List.mem_cons_of_mem i hx) hR)

/-- C3 amended: an organization can be a member of the membership sets
of two roots of the organization tree only when the two roots coincide
or one root's `partOf` chain leads to the other (nested roots) — the
tree builder does not make root membership sets disjoint when roots
are nested. -/
theorem C3_tree_membership (entries : List BundleEntry) (r1 r2 o : Organization)
    (l1 l2 : List Organization)
    (h1 : (r1, l1) ∈ createOrganizationTree entries)
    (h2 : (r2, l2) ∈ createOrganizationTree entries)
    (ho1 : o ∈ l1) (ho2 : o ∈ l2)
    (_hNoUra : filterIdentifiersBySystem o.identifier uraNamingSystem = []) :
    r1 = r2 ∨
    organizationLinksToParent (buildOrgMap' [] entries) r1 r2 = true ∨
    organizationLinksToParent (buildOrgMap' [] entries) r2 r1 = true := by
  obtain ⟨hinv, hnd⟩ := buildOrgMap'_inv entries [] (by simp) (by simp)
  simp only [createOrganizationTree] at h1 h2
  obtain ⟨p1, hp1mem, hp1eq⟩ := List.mem_map.mp h1
  obtain ⟨p2, hp2mem, hp2eq⟩ := List.mem_map.mp h2
  have hp1m := List.mem_of_mem_filter hp1mem
  have hp2m := List.mem_of_mem_filter hp2mem
  rw [Prod.mk.injEq] at hp1eq hp2eq
  have hr1v : r1 ∈ (buildOrgMap' [] entries).map Prod.snd :=
    hp1eq.1 ▸ List.mem_map_of_mem Prod.snd hp1m
  have hr2v : r2 ∈ (buildOrgMap' [] entries).map Prod.snd :=
    hp2eq.1 ▸ List.mem_map_of_mem Prod.snd hp2m
  have hl1 : l1 = findOrganizationsLinkedToParent (buildOrgMap' [] entries) r1 := by
    rw [← hp1eq.2, hp1eq.1]
  have hl2 : l2 = findOrganizationsLinkedToParent (buildOrgMap' [] entries) r2 := by
    rw [← hp2eq.2, hp2eq.1]
  rw [hl1, findOrganizationsLinkedToParent] at ho1
  rw [hl2, findOrganizationsLinkedToParent] at ho2
  obtain ⟨q1, hq1mem, hq1eq⟩ := List.mem_map.mp ho1
  obtain ⟨q2, hq2mem, hq2eq⟩ := List.mem_map.mp ho2
  have hq1m := List.mem_of_mem_filter hq1mem
  have hq1f := List.of_mem_filter hq1mem
  have hq2f := List.of_mem_filter hq2mem
  have hov : o ∈ (buildOrgMap' [] entries).map Prod.snd :=
    hq1eq ▸ List.mem_map_of_mem Prod.snd hq1m
  rw [Bool.and_eq_true] at hq1f hq2f
  have hlink1 : organizationLinksToParent (buildOrgMap' [] entries) o r1 = true := by
    rw [← hq1eq]
    exact hq1f.2
  have hlink2 : organizationLinksToParent (buildOrgMap' [] entries) o r2 = true := by
    rw [← hq2eq]
    exact hq2f.2
  have h11 : organizationLinksGo (buildOrgMap' [] entries) r1 11 o [] = true := hlink1
  have h22 : organizationLinksGo (buildOrgMap' [] entries) r2 11 o [] = true := hlink2
  rcases organizationLinksGo_two (buildOrgMap' [] entries) r1 r2 hinv hnd hr1v hr2v
      11 11 o [] hov h11 h22 with hL | hR
  · exact Or.inr (Or.inl hL)
  · exact Or.inr (Or.inr hR)

/-- The URA-bearing root A of the C3 counterexample. -/
def c3EntryA : BundleEntry :=
  { resource := some (.obj (.cons "id" (.str "a")
      (.cons "identifier" (.arr (.cons (.obj (.cons "system" (.str uraNamingSystem)
        (.cons "value" (.str "1") .nil))) .nil)) .nil))) }

/-- The URA-bearing nested root B of the C3 counterexample, part of
A. -/
def c3EntryB : BundleEntry :=
  { resource := some (.obj (.cons "id" (.str "b")
      (.cons "identifier" (.arr (.cons (.obj (.cons "system" (.str uraNamingSystem)
        (.cons "value" (.str "2") .nil))) .nil))
      (.cons "partOf" (.obj (.cons "reference" (.str "Organization/a") .nil)) .nil)))) }

/-- The URA-less organization C of the C3 counterexample, part of
B. -/
def c3EntryC : BundleEntry :=
  { resource := some (.obj (.cons "id" (.str "c")
      (.cons "partOf" (.obj (.cons "reference" (.str "Organization/b") .nil)) .nil))) }

/-- Root A as decoded by the tree builder. -/
def c3OrgA : Organization :=
  { id := some "a", identifier := [{ system := some uraNamingSystem, value := some "1" }] }

/-- Nested root B as decoded by the tree builder. -/
def c3OrgB : Organization :=
  { id := some "b", identifier := [{ system := some uraNamingSystem, value := some "2" }],
    partOf := some { reference := some "Organization/a" } }

/-- Organization C as decoded by the tree builder. -/
def c3OrgC : Organization :=
  { id := some "c", partOf := some { reference := some "Organization/b" } }

/-- Counterexample to C3 as stated: with nested URA-bearing roots
(B part-of A) the URA-less organization C is a member of both roots'
membership sets, and the two roots differ. -/
theorem C3_counterexample :
    createOrganizationTree [c3EntryA, c3EntryB, c3EntryC] =
      [(c3OrgA, [c3OrgB, c3OrgC]), (c3OrgB, [c3OrgC])] ∧
    filterIdentifiersBySystem c3OrgC.identifier uraNamingSystem = [] ∧
    ¬ c3OrgA = c3OrgB ∧
    c3OrgC ∈ [c3OrgB, c3OrgC] ∧ c3OrgC ∈ [c3OrgC] :=
  ⟨rfl, rfl, by decide, by decide, by decide⟩

/-- Witness for C3 at the nested-roots instance. -/
theorem C3_tree_membership_witness :
    c3OrgA = c3OrgB ∨
    organizationLinksToParent (buildOrgMap' [] [c3EntryA, c3EntryB, c3EntryC])
      c3OrgA c3OrgB = true ∨
    organizationLinksToParent (buildOrgMap' [] [c3EntryA, c3EntryB, c3EntryC])
      c3OrgB c3OrgA = true :=
  C3_tree_membership [c3EntryA, c3EntryB, c3EntryC] c3OrgA c3OrgB c3OrgC
    [c3OrgB, c3OrgC] [c3OrgC] (by decide) (by decide) (by decide) (by decide) rfl

end MCSD
